import Mathlib

/-!
Verification of the hash-set core of `src/lib/hashset.c`.

The C code is shallowly embedded: the mutable `HSet` struct becomes an
immutable Lean structure and every mutating C function returns the new
state (paired with its C return value).  Machine integers (`size_t`,
`uint64_t`) are modelled as `Nat`; the `double` fields `load_factor` and
`growth_factor` are modelled as `ℚ` (all values the code ever stores or
compares — 0.75, 2.0, and quotients of a count by a power-of-two
capacity — are exactly representable as doubles, so the rational model
is exact).  `malloc`/`calloc` failure paths are not modelled: allocation
always succeeds in the model.  The caller-supplied element policy
(`cmp`, `hasher`, `copier`, `deallocator`) is modelled with the value
semantics of the stored elements: `copier` produces an independent equal
value, hence is the identity on values, and `deallocator` releases
memory, hence is invisible at the value level; `cmp` and `hasher` are
carried as function fields exactly as in the struct.
-/

set_option maxHeartbeats 1000000

namespace HashSetC

/-- Model of `struct HashSetNode`: one owned element plus its cached hash.
The `next` pointer is modelled by node order inside the bucket list. -/
structure HSNode (α : Type) where
  key : α
  hash : Nat
deriving Repr, DecidableEq

/-- Model of `struct HashSet`.  `buckets` is the array of chains
(`HSNode** buckets`), chain head first, mirroring the C layout.
The C fields `_mut_count` and `_collisions` are `mut_count` and
`collisions` here (a leading underscore is dropped).  The `printer`
field is omitted: it is only used by the printing functions, which are
outside the claims. -/
structure HSet (α : Type) where
  buckets : List (List (HSNode α))
  count : Nat
  capacity : Nat
  element_size : Nat
  seed_0 : Nat
  seed_1 : Nat
  load_factor : ℚ
  growth_factor : ℚ
  cmp : α → α → Int
  hasher : α → Nat → Nat → Nat
  mut_count : Nat
  collisions : Nat

/-- Structural (fuel-driven) floor of log₂, used to model
`__builtin_clzl`: for `n > 0`, `63 - clzl(n) = floorLog2 n`.  The fuel
argument makes the recursion structural so the kernel can evaluate it. -/
def floorLog2Aux : Nat → Nat → Nat
  | 0, _ => 0
  | fuel + 1, n => if n ≤ 1 then 0 else floorLog2Aux fuel (n / 2) + 1

/-- Floor of log₂ (`floorLog2 1 = 0`, `floorLog2 8 = 3`). -/
def floorLog2 (n : Nat) : Nat := floorLog2Aux n n

/-- Model of `__npo2`: `n == 1 ? 1 : 1 << (64 - __builtin_clzl(n - 1))`,
i.e. the next power of two `2 ^ (floorLog2 (n-1) + 1)` for `n ≥ 2`.
(The C expression is undefined for `n = 0`; every call site passes
`n ≥ 4`.  The model returns 1 for `n ≤ 1`, matching the C at `n = 1`.) -/
def __npo2 (n : Nat) : Nat :=
  if n ≤ 1 then 1 else 2 ^ (floorLog2 (n - 1) + 1)

/-- Model of `__best_capacity`: `(size_t)((double)curr_count / load_factor)`.
For `load_factor = num/den > 0` the truncated real quotient equals
`curr_count * den / num` in integer arithmetic, which is how it is
written here so that the kernel can evaluate it. -/
def __best_capacity (curr_count : Nat) (load_factor : ℚ) : Nat :=
  curr_count * load_factor.den / load_factor.num.toNat

/-- Model of `__hs_hash`: `hs->hasher(k, hs->seed_0, hs->seed_1)`. -/
def __hs_hash {α : Type} (hs : HSet α) (k : α) : Nat :=
  hs.hasher k hs.seed_0 hs.seed_1

/-- Model of `__hs_index`: `hash & (capacity - 1)`. -/
def __hs_index (hash capacity : Nat) : Nat := hash &&& (capacity - 1)

/-- Model of `hs->buckets[i]` (out-of-range reads, which the C never
performs, give the empty chain). -/
def bucketAt {α : Type} (hs : HSet α) (i : Nat) : List (HSNode α) :=
  hs.buckets.getD i []

/-- The node test performed while walking a chain:
`curr->hash == hash && hs->cmp(curr->key, k) == 0`. -/
def nodeMatches {α : Type} (cmp : α → α → Int) (k : α) (hash : Nat)
    (node : HSNode α) : Bool :=
  node.hash == hash && cmp node.key k == 0

/-- Model of `__hs_find_target_ptr` combined with the unlinking step its
callers perform through the returned `HSNode**`: walking the chain, the
first node matching `hash`/`cmp` is removed and the remaining chain is
returned; `none` models the C function returning `NULL` (not found). -/
def __hs_find_target {α : Type} (cmp : α → α → Int) (k : α) (hash : Nat) :
    List (HSNode α) → Option (List (HSNode α))
  | [] => none
  | n :: rest =>
    if nodeMatches cmp k hash n then some rest
    else match __hs_find_target cmp k hash rest with
      | none => none
      | some r => some (n :: r)

/-- Model of `__hs_contains`: `__hs_find_target_ptr(...) != NULL`. -/
def __hs_contains {α : Type} (hs : HSet α) (k : α) (hash index : Nat) : Bool :=
  (__hs_find_target hs.cmp k hash (bucketAt hs index)).isSome

/-- Model of `hs_contains` (the `!hs || !k` guard is dropped: Lean
values cannot be `NULL`; the null-operand behaviour that claims talk
about is modelled separately at `Option` level). -/
def hs_contains {α : Type} (hs : HSet α) (k : α) : Bool :=
  let hash := __hs_hash hs k
  __hs_contains hs k hash (__hs_index hash hs.capacity)

/-- One relink step of `__hs_resize`'s rehash loop: prepend `node` to
`new_buckets[node->hash & (new_capacity - 1)]`. -/
def __hs_rehash_node {α : Type} (new_capacity : Nat)
    (bs : List (List (HSNode α))) (node : HSNode α) : List (List (HSNode α)) :=
  let i := __hs_index node.hash new_capacity
  bs.set i (node :: bs.getD i [])

/-- Model of `__hs_resize`: rejects `new_capacity <= hs->capacity`
(returns `false`, modelled `none`), otherwise relinks every node, in
bucket order and chain order, into a fresh bucket array.  The `calloc`
failure path is not modelled. -/
def __hs_resize {α : Type} (hs : HSet α) (new_capacity : Nat) : Option (HSet α) :=
  if new_capacity ≤ hs.capacity then none
  else some { hs with
    buckets := hs.buckets.flatten.foldl (__hs_rehash_node new_capacity)
      (List.replicate new_capacity []),
    capacity := new_capacity }

/-- Model of the public `hs_resize`: bumps the mutation counter, returns
`true` immediately if `hs->capacity > new_capacity`, else rounds the
capacity with `__npo2` and calls `__hs_resize`. -/
def hs_resize {α : Type} (hs : HSet α) (new_capacity : Nat) : Bool × HSet α :=
  let hs1 := { hs with mut_count := hs.mut_count + 1 }
  if new_capacity < hs1.capacity then (true, hs1)
  else match __hs_resize hs1 (__npo2 new_capacity) with
    | some hs2 => (true, hs2)
    | none => (false, hs1)

/-- Model of `hs_insert`.  Follows the C control flow: bump
`_mut_count`, hash, reject if already present, prepend a node holding a
copy of the element, bump `_collisions` if the bucket was non-empty,
bump `count`, and resize to double capacity if
`(double)count / (double)capacity > load_factor`.  That comparison is
written `load_factor < mkRat count capacity`, the exact rational value
of the quotient (`capacity` is always a positive power of two, so the
double computation in C is exact as well).  `malloc` failure paths are
not modelled; the ignored failure result of `__hs_resize` is kept as
the `none` match arm. -/
def hs_insert {α : Type} (hs : HSet α) (k : α) : Bool × HSet α :=
  let hs1 := { hs with mut_count := hs.mut_count + 1 }
  let hash := __hs_hash hs1 k
  let index := __hs_index hash hs1.capacity
  if __hs_contains hs1 k hash index then (false, hs1)
  else
    let collided := !(bucketAt hs1 index).isEmpty
    let hs2 := { hs1 with
      buckets := hs1.buckets.set index (⟨k, hash⟩ :: bucketAt hs1 index),
      collisions := if collided then hs1.collisions + 1 else hs1.collisions,
      count := hs1.count + 1 }
    let hs3 :=
      if hs2.load_factor < mkRat hs2.count hs2.capacity then
        match __hs_resize hs2 (hs2.capacity * 2) with
        | some r => r
        | none => hs2
      else hs2
    (true, hs3)

/-- The state after `hs_insert` has linked the new node, before the
load-factor check: a proof-convenience decomposition of `hs_insert`
(definitionally equal to the corresponding part of its body, see
`hs_insert_eq`). -/
def __hs_insert_node {α : Type} (hs : HSet α) (k : α) : HSet α :=
  let hash := __hs_hash hs k
  let index := __hs_index hash hs.capacity
  { hs with
    mut_count := hs.mut_count + 1,
    buckets := hs.buckets.set index (⟨k, hash⟩ :: bucketAt hs index),
    collisions := if !(bucketAt hs index).isEmpty then hs.collisions + 1
      else hs.collisions,
    count := hs.count + 1 }

/-- The load-factor check and conditional doubling at the end of
`hs_insert`: a proof-convenience decomposition (see `hs_insert_eq`). -/
def __hs_insert_grow {α : Type} (hs2 : HSet α) : HSet α :=
  if hs2.load_factor < mkRat hs2.count hs2.capacity then
    match __hs_resize hs2 (hs2.capacity * 2) with
    | some r => r
    | none => hs2
  else hs2

/-- Model of `hs_remove`: bump `_mut_count`, hash, unlink and free the
first matching node (`__hs_find_target_ptr` walk), decrement `count`;
`(false, ·)` models returning `false` with the set otherwise as it was
at that point. -/
def hs_remove {α : Type} (hs : HSet α) (k : α) : Bool × HSet α :=
  let hs1 := { hs with mut_count := hs.mut_count + 1 }
  let hash := __hs_hash hs1 k
  let index := __hs_index hash hs1.capacity
  match __hs_find_target hs1.cmp k hash (bucketAt hs1 index) with
  | none => (false, hs1)
  | some bucket =>
    (true, { hs1 with buckets := hs1.buckets.set index bucket,
                      count := hs1.count - 1 })

/-- Model of `hs_retain`: one `_mut_count` bump, then every node whose
key fails the predicate is unlinked (chain order preserved) and `count`
is decremented once per removed node. -/
def hs_retain {α : Type} (hs : HSet α) (pred : α → Bool) : HSet α :=
  let hs1 := { hs with mut_count := hs.mut_count + 1 }
  let removed := (hs1.buckets.flatten.filter (fun n => !(pred n.key))).length
  { hs1 with
    buckets := hs1.buckets.map (fun b => b.filter (fun n => pred n.key)),
    count := hs1.count - removed }

/-- Model of `hs_clear`.  The C function bumps `_mut_count` and then
walks every chain calling the deallocator and `free` on each node — but
it never writes `hs->count` and never resets `hs->buckets[i]` to
`NULL`.  At the struct level the only field it changes is `_mut_count`;
the bucket head pointers are left pointing at freed nodes.  The model
therefore changes only `mut_count` (`buckets` retains the old chains,
now dangling in C). -/
def hs_clear {α : Type} (hs : HSet α) : HSet α :=
  { hs with mut_count := hs.mut_count + 1 }

/-- Model of `hs_count`. -/
def hs_count {α : Type} (hs : HSet α) : Nat := hs.count

/-- Model of `hs_is_empty` at `Option` level, where `none` stands for a
`NULL` set pointer.  The C body is `return hs->count == 0;` with no
null check: calling it on `NULL` dereferences the null pointer.  That
fault (undefined behaviour / crash) is modelled by the `none` result. -/
def hs_is_empty {α : Type} : Option (HSet α) → Option Bool
  | none => none
  | some hs => some (hs.count == 0)

/-- Model of `hs_new_with_capacity`.  Seeds are the two values drawn
from `/dev/urandom` (`__random_u64`), passed in as parameters of the
opaque random service.  The null-policy guards are unrepresentable
(Lean function values cannot be `NULL`); the `element_size == 0` guard
and the capacity rounding `capacity < 4 ? 4 : __npo2(capacity)` are
kept.  Defaults: `load_factor = 0.75`, `growth_factor = 2.0`. -/
def hs_new_with_capacity (α : Type) (element_size : Nat)
    (cmp : α → α → Int) (hasher : α → Nat → Nat → Nat)
    (capacity seed_0 seed_1 : Nat) : Option (HSet α) :=
  if element_size = 0 then none
  else
    let cap := if capacity < 4 then 4 else __npo2 capacity
    some { buckets := List.replicate cap []
           count := 0
           capacity := cap
           element_size := element_size
           seed_0 := seed_0
           seed_1 := seed_1
           load_factor := mkRat 3 4
           growth_factor := mkRat 2 1
           cmp := cmp
           hasher := hasher
           mut_count := 0
           collisions := 0 }

/-- Model of `hs_new`: `hs_new_with_capacity(..., 4)`. -/
def hs_new (α : Type) (element_size : Nat) (cmp : α → α → Int)
    (hasher : α → Nat → Nat → Nat) (seed_0 seed_1 : Nat) : Option (HSet α) :=
  hs_new_with_capacity α element_size cmp hasher 4 seed_0 seed_1

/-- The insertion loop shared by `hs_new_from_array` and `hs_copy`:
insert the elements in order, aborting (the C frees the partial set and
returns `NULL`) as soon as `hs_insert` returns `false`. -/
def __hs_insert_all {α : Type} (hs : HSet α) : List α → Option (HSet α)
  | [] => some hs
  | k :: ks =>
    match hs_insert hs k with
    | (true, hs1) => __hs_insert_all hs1 ks
    | (false, _) => none

/-- Model of `hs_new_from_array`: construct with capacity `length`,
then insert `arr[0], arr[1], ...` in order, failing entirely on the
first rejected insert. -/
def hs_new_from_array (α : Type) (element_size : Nat)
    (cmp : α → α → Int) (hasher : α → Nat → Nat → Nat)
    (arr : List α) (seed_0 seed_1 : Nat) : Option (HSet α) :=
  match hs_new_with_capacity α element_size cmp hasher arr.length seed_0 seed_1 with
  | none => none
  | some hs => __hs_insert_all hs arr

/-- All keys of the set in iteration order: bucket order, chain order.
This is the order in which `hs_copy` and the algebra operations walk
the operand (`for i ...; curr = curr->next`). -/
def allKeys {α : Type} (hs : HSet α) : List α :=
  hs.buckets.flatten.map HSNode.key

/-- Model of `hs_copy_metadata`: `hs_new` with the source's element
size and policy — but fresh random seeds and default factors (the C
comment notwithstanding, seeds and factors are not copied).  The two
seed parameters model the fresh `__random_u64` draws. -/
def hs_copy_metadata {α : Type} (hs : HSet α) (seed_0 seed_1 : Nat) :
    Option (HSet α) :=
  hs_new α hs.element_size hs.cmp hs.hasher seed_0 seed_1

/-- Model of `hs_copy_metadata_with_capacity`. -/
def hs_copy_metadata_with_capacity {α : Type} (hs : HSet α)
    (capacity seed_0 seed_1 : Nat) : Option (HSet α) :=
  hs_new_with_capacity α hs.element_size hs.cmp hs.hasher capacity seed_0 seed_1

/-- Model of `hs_copy`: metadata copy (fresh seeds), then insert every
stored key in iteration order, aborting to `NULL` if any insert fails. -/
def hs_copy {α : Type} (hs : HSet α) (seed_0 seed_1 : Nat) : Option (HSet α) :=
  match hs_copy_metadata hs seed_0 seed_1 with
  | none => none
  | some c => __hs_insert_all c (allKeys hs)

/-- Model of `hs_are_eq` on two non-null sets (the `a == b` pointer
shortcut and null checks precede this in C; two distinct live sets take
exactly this path): equal counts, equal element sizes, and every
element of `a` contained in `b`. -/
def hs_are_eq {α : Type} (a b : HSet α) : Bool :=
  if a.count ≠ b.count then false
  else if a.element_size ≠ b.element_size then false
  else a.buckets.flatten.all (fun node => hs_contains b node.key)

/-- Model of `hs_is_subset` at `Option` level (`none` = `NULL`
pointer).  The C first tests `a == b` (covered here by the
`none, none` case — two equal non-null pointers also scan
successfully), then `if (!a || !b) return hs_is_empty(a);`.  When `a`
is `NULL` and `b` is not, that calls `hs_is_empty(NULL)`, which
dereferences the null pointer: the fault propagates as `none`. -/
def hs_is_subset {α : Type} : Option (HSet α) → Option (HSet α) → Option Bool
  | none, none => some true
  | none, some _ => hs_is_empty (none : Option (HSet α))
  | some a, none => hs_is_empty (some a)
  | some a, some b =>
    if a.count > b.count then some false
    else some (a.buckets.flatten.all (fun node => hs_contains b node.key))

/-- The conditional-insert loop shared by the algebra operations: walk
`keys` in iteration order and insert those satisfying `cond` into
`acc`, ignoring `hs_insert`'s boolean result exactly as the C does. -/
def __hs_insert_where {α : Type} (cond : α → Bool) (acc : HSet α) :
    List α → HSet α
  | [] => acc
  | k :: ks =>
    __hs_insert_where cond (if cond k then (hs_insert acc k).2 else acc) ks

/-- Model of `hs_intersection` on two non-null sets: iterate the
smaller operand (ties iterate `a`), check containment in the larger,
and insert matches into a fresh metadata copy of `a` sized to the
larger operand's capacity.  The seed parameters are the fresh seeds the
metadata copy draws. -/
def hs_intersection {α : Type} (a b : HSet α) (seed_0 seed_1 : Nat) :
    Option (HSet α) :=
  let iterate_set := if a.count ≤ b.count then a else b
  let check_set := if a.count ≤ b.count then b else a
  match hs_copy_metadata_with_capacity a check_set.capacity seed_0 seed_1 with
  | none => none
  | some r =>
    some (__hs_insert_where (fun k => hs_contains check_set k) r
      (allKeys iterate_set))

/-- Model of `hs_sym_difference` on two non-null sets: a fresh metadata
copy of `a` with capacity `__best_capacity(count(a)+count(b), lf(a))`,
pass 1 inserting elements of `a` absent from `b`, pass 2 inserting
elements of `b` absent from `a`. -/
def hs_sym_difference {α : Type} (a b : HSet α) (seed_0 seed_1 : Nat) :
    Option (HSet α) :=
  let capacity := __best_capacity (a.count + b.count) a.load_factor
  match hs_copy_metadata_with_capacity a capacity seed_0 seed_1 with
  | none => none
  | some r =>
    let r1 := __hs_insert_where (fun k => !(hs_contains b k)) r (allKeys a)
    let r2 := __hs_insert_where (fun k => !(hs_contains a k)) r1 (allKeys b)
    some r2

/-- Model of `HSIterator`.  The C `node` pointer into a chain is
modelled as the pair (bucket index, offset in chain); `none` models the
`NULL` node pointer.  `index` is, as in C, the index of the next bucket
to scan (one past the bucket currently being walked). -/
structure HSIterator (α : Type) where
  index : Nat
  node : Option (Nat × Nat)
  mutations : Nat
deriving Repr, DecidableEq

/-- Model of `hs_iterator`: starts unpositioned at bucket 0 with a
snapshot of the live mutation counter. -/
def hs_iterator {α : Type} (hs : HSet α) : HSIterator α :=
  { index := 0, node := none, mutations := hs.mut_count }

/-- The bucket-scan loop of `hs_iter_next`
(`while (it->index < capacity) { node = buckets[it->index++]; ... }`),
structural on the remaining-bucket fuel.  Returns the new node position
(`none` when the array is exhausted) and the new `index`. -/
def __hs_iter_scan {α : Type} (hs : HSet α) :
    Nat → Nat → Option (Nat × Nat) × Nat
  | 0, index => (none, index)
  | fuel + 1, index =>
    if index < hs.capacity then
      if (bucketAt hs index).isEmpty then __hs_iter_scan hs fuel (index + 1)
      else (some (index, 0), index + 1)
    else (none, index)

/-- Model of `hs_iter_next`: fail closed on a mutation-counter
mismatch; otherwise advance within the current chain
(`it->node = it->node->next`), falling back to the bucket scan. -/
def hs_iter_next {α : Type} (hs : HSet α) (it : HSIterator α) :
    Bool × HSIterator α :=
  if it.mutations ≠ hs.mut_count then (false, it)
  else
    let scan := fun (it : HSIterator α) =>
      match __hs_iter_scan hs (hs.capacity - it.index) it.index with
      | (some p, idx) => (true, { it with node := some p, index := idx })
      | (none, idx) => (false, { it with node := none, index := idx })
    match it.node with
    | some (b, off) =>
      if off + 1 < (bucketAt hs b).length then
        (true, { it with node := some (b, off + 1) })
      else scan it
    | none => scan it

/-- Model of `hs_iter_get`: `NULL` (here `none`) if unpositioned or on
a mutation-counter mismatch, else the current node's key. -/
def hs_iter_get {α : Type} (hs : HSet α) (it : HSIterator α) : Option α :=
  match it.node with
  | none => none
  | some (b, off) =>
    if it.mutations ≠ hs.mut_count then none
    else ((bucketAt hs b)[off]?).map HSNode.key

/-- State invariant of a live hash set, as maintained by the C code:
positive element size and capacity, bucket array of length `capacity`,
`count` equal to the number of live nodes, every node carrying its
cached hash, every node sitting in bucket `hash & (capacity - 1)`, and
no two nodes whose keys the comparator deems equal. -/
def HSInv {α : Type} (hs : HSet α) : Prop :=
  0 < hs.element_size ∧
  0 < hs.capacity ∧
  hs.buckets.length = hs.capacity ∧
  hs.count = hs.buckets.flatten.length ∧
  (∀ n ∈ hs.buckets.flatten, n.hash = hs.hasher n.key hs.seed_0 hs.seed_1) ∧
  (∀ i < hs.buckets.length, ∀ n ∈ bucketAt hs i, __hs_index n.hash hs.capacity = i) ∧
  hs.buckets.flatten.Pairwise (fun n m => hs.cmp n.key m.key ≠ 0)

instance {α : Type} (hs : HSet α) : Decidable (HSInv hs) := by
  unfold HSInv; infer_instance

/-- Soundness of a caller-supplied element policy, as assumed by the
spec: the comparator's kernel is an equivalence and the hash respects
it for every pair of seeds. -/
class PolicyOK {α : Type} (cmp : α → α → Int)
    (hasher : α → Nat → Nat → Nat) : Prop where
  cmp_refl : ∀ a, cmp a a = 0
  cmp_symm : ∀ a b, cmp a b = 0 → cmp b a = 0
  cmp_trans : ∀ a b c, cmp a b = 0 → cmp b c = 0 → cmp a c = 0
  hash_congr : ∀ a b s0 s1, cmp a b = 0 → hasher a s0 s1 = hasher b s0 s1

/-- The setoid induced by a sound comparator: keys are related when the
comparator returns 0. -/
@[reducible] def pSetoid {α : Type} (cmp : α → α → Int)
    (hasher : α → Nat → Nat → Nat) [P : PolicyOK cmp hasher] : Setoid α :=
  { r := fun a b => cmp a b = 0
    iseqv := ⟨P.cmp_refl, fun h => P.cmp_symm _ _ h,
      fun h h' => P.cmp_trans _ _ _ h h'⟩ }

instance pDecEq {α : Type} (cmp : α → α → Int)
    (hasher : α → Nat → Nat → Nat) [PolicyOK cmp hasher] :
    DecidableEq (Quotient (pSetoid cmp hasher)) :=
  @Quotient.decidableEq _ _ (fun a b => Int.decEq (cmp a b) 0)

/-- The set of key equivalence classes stored in a hash set (the
mathematical contents of the set). -/
def keyClasses {α : Type} (cmp : α → α → Int)
    (hasher : α → Nat → Nat → Nat) [PolicyOK cmp hasher] (hs : HSet α) :
    Finset (Quotient (pSetoid cmp hasher)) :=
  (hs.buckets.flatten.map (fun n => Quotient.mk (pSetoid cmp hasher) n.key)).toFinset

/-- The set of key equivalence classes of a plain key list. -/
def listClasses {α : Type} (cmp : α → α → Int)
    (hasher : α → Nat → Nat → Nat) [PolicyOK cmp hasher] (ks : List α) :
    Finset (Quotient (pSetoid cmp hasher)) :=
  (ks.map (fun k => Quotient.mk (pSetoid cmp hasher) k)).toFinset

/-- Concrete integer comparator (the test suite's `int_cmp`). -/
def natCmp (a b : Nat) : Int := (a : Int) - (b : Int)

/-- Concrete hasher for witnesses: seed-independent identity hash. -/
def natHasher (k : Nat) (_ _ : Nat) : Nat := k

instance natPolicyOK : PolicyOK natCmp natHasher where
  cmp_refl a := by simp [natCmp]
  cmp_symm a b h := by simp [natCmp] at h ⊢; omega
  cmp_trans a b c h h' := by simp [natCmp] at h h' ⊢; omega
  hash_congr a b s0 s1 h := by
    simp [natCmp] at h
    have : a = b := by omega
    simp [natHasher, this]

/-- A concrete empty set over `Nat` with the default construction
parameters (capacity 4, load factor 0.75, seeds 0), used by witnesses. -/
def natEmpty : HSet Nat :=
  { buckets := List.replicate 4 []
    count := 0
    capacity := 4
    element_size := 8
    seed_0 := 0
    seed_1 := 0
    load_factor := mkRat 3 4
    growth_factor := mkRat 2 1
    cmp := natCmp
    hasher := natHasher
    mut_count := 0
    collisions := 0 }

/-- Insert a list of keys left to right, keeping only the final state. -/
def natSetOf (ks : List Nat) : HSet Nat :=
  ks.foldl (fun s k => (hs_insert s k).2) natEmpty


/-! ### List-level helper lemmas -/

theorem flatten_replicate_nil {β : Type} (n : Nat) :
    (List.replicate n ([] : List β)).flatten = [] := by
  induction n with
  | zero => rfl
  | succ n ih => simp [List.replicate_succ, ih]

theorem flatten_decomp {β : Type} (L : List (List β)) (i : Nat)
    (h : i < L.length) :
    L.flatten = (L.take i).flatten ++ L.getD i [] ++ (L.drop (i + 1)).flatten := by
  induction L generalizing i with
  | nil => simp at h
  | cons b L ih =>
    cases i with
    | zero => simp
    | succ i =>
      have h' : i < L.length := by simpa using h
      simp [List.getD_cons_succ, List.flatten_cons, ih i h', List.append_assoc]

theorem flatten_set {β : Type} (L : List (List β)) (i : Nat) (b : List β)
    (h : i < L.length) :
    (L.set i b).flatten = (L.take i).flatten ++ b ++ (L.drop (i + 1)).flatten := by
  induction L generalizing i with
  | nil => simp at h
  | cons c L ih =>
    cases i with
    | zero => simp
    | succ i =>
      have h' : i < L.length := by simpa using h
      simp [List.set_cons_succ, List.flatten_cons, ih i h', List.append_assoc]

theorem flatten_set_cons_perm {β : Type} (L : List (List β)) (i : Nat) (x : β)
    (h : i < L.length) :
    ((L.set i (x :: L.getD i [])).flatten).Perm (x :: L.flatten) := by
  rw [flatten_set L i _ h]
  conv_rhs => rw [flatten_decomp L i h]
  have e1 : (L.take i).flatten ++ (x :: L.getD i []) ++ (L.drop (i + 1)).flatten
      = (L.take i).flatten ++ x :: (L.getD i [] ++ (L.drop (i + 1)).flatten) := by
    simp [List.append_assoc]
  have e2 : (L.take i).flatten ++ L.getD i [] ++ (L.drop (i + 1)).flatten
      = (L.take i).flatten ++ (L.getD i [] ++ (L.drop (i + 1)).flatten) := by
    simp [List.append_assoc]
  rw [e1, e2]
  exact List.perm_middle

theorem getD_set {β : Type} (L : List β) (i j : Nat) (b d : β) :
    (L.set i b).getD j d =
      if i = j ∧ i < L.length then b else L.getD j d := by
  rw [List.getD_eq_getElem?_getD, List.getD_eq_getElem?_getD, List.getElem?_set]
  by_cases hij : i = j
  · subst hij
    by_cases hi : i < L.length
    · simp [hi]
    · simp [hi, List.getElem?_eq_none (by omega : L.length ≤ i)]
  · simp [hij]

theorem mem_bucketAt_flatten {α : Type} (hs : HSet α) (i : Nat)
    {n : HSNode α} (h : n ∈ bucketAt hs i) : n ∈ hs.buckets.flatten := by
  unfold bucketAt at h
  by_cases hi : i < hs.buckets.length
  · rw [List.getD_eq_getElem?_getD, List.getElem?_eq_getElem hi] at h
    exact List.mem_flatten.2 ⟨hs.buckets[i], List.getElem_mem hi, h⟩
  · rw [List.getD_eq_getElem?_getD, List.getElem?_eq_none (by omega)] at h
    simp at h

theorem mem_flatten_bucket {α : Type} (hs : HSet α) {n : HSNode α}
    (h : n ∈ hs.buckets.flatten) :
    ∃ i, i < hs.buckets.length ∧ n ∈ bucketAt hs i := by
  rcases List.mem_flatten.1 h with ⟨l, hl, hn⟩
  rcases List.mem_iff_getElem.1 hl with ⟨i, hi, hgl⟩
  refine ⟨i, hi, ?_⟩
  unfold bucketAt
  rw [List.getD_eq_getElem?_getD, List.getElem?_eq_getElem hi, hgl]
  exact hn

theorem find_target_isSome {α : Type} (cmp : α → α → Int) (k : α) (h : Nat)
    (l : List (HSNode α)) :
    (__hs_find_target cmp k h l).isSome = l.any (nodeMatches cmp k h) := by
  induction l with
  | nil => simp [__hs_find_target]
  | cons n rest ih =>
    by_cases hm : nodeMatches cmp k h n
    · simp [__hs_find_target, hm]
    · cases hr : __hs_find_target cmp k h rest with
      | none => simp [__hs_find_target, hm, hr, ← ih]
      | some r => simp [__hs_find_target, hm, hr, ← ih]

theorem find_target_isSome_iff {α : Type} (cmp : α → α → Int) (k : α)
    (h : Nat) (l : List (HSNode α)) :
    (__hs_find_target cmp k h l).isSome = true ↔
      ∃ n ∈ l, nodeMatches cmp k h n = true := by
  rw [find_target_isSome, List.any_eq_true]

theorem find_target_some {α : Type} (cmp : α → α → Int) (k : α) (h : Nat)
    {l l' : List (HSNode α)} (H : __hs_find_target cmp k h l = some l') :
    ∃ pre n post, l = pre ++ n :: post ∧ l' = pre ++ post ∧
      nodeMatches cmp k h n = true := by
  induction l generalizing l' with
  | nil => simp [__hs_find_target] at H
  | cons m rest ih =>
    by_cases hm : nodeMatches cmp k h m
    · simp [__hs_find_target, hm] at H
      exact ⟨[], m, rest, rfl, by simp [H], hm⟩
    · cases hr : __hs_find_target cmp k h rest with
      | none => simp [__hs_find_target, hm, hr] at H
      | some r =>
        simp [__hs_find_target, hm, hr] at H
        rcases ih hr with ⟨pre, n, post, e1, e2, hn⟩
        exact ⟨m :: pre, n, post, by simp [e1], by simp [← H, e2], hn⟩

theorem __hs_index_lt (h c : Nat) (hc : 0 < c) : __hs_index h c < c := by
  unfold __hs_index
  have hle : h &&& (c - 1) ≤ c - 1 := Nat.and_le_right
  omega

/-! ### Rehash and resize lemmas -/

theorem getD_replicate_nil {β : Type} (c j : Nat) :
    (List.replicate c ([] : List β)).getD j [] = [] := by
  rw [List.getD_eq_getElem?_getD]
  by_cases hj : j < c
  · simp [List.getElem?_replicate, hj]
  · simp [List.getElem?_replicate, hj]

theorem rehash_length {α : Type} (c : Nat) (ns : List (HSNode α))
    (acc : List (List (HSNode α))) :
    (ns.foldl (__hs_rehash_node c) acc).length = acc.length := by
  induction ns generalizing acc with
  | nil => rfl
  | cons n rest ih =>
    simp only [List.foldl_cons, ih]
    unfold __hs_rehash_node
    simp [List.length_set]

theorem rehash_flatten_perm {α : Type} (c : Nat) (hc : 0 < c)
    (ns : List (HSNode α)) (acc : List (List (HSNode α)))
    (hlen : acc.length = c) :
    ((ns.foldl (__hs_rehash_node c) acc).flatten).Perm (ns ++ acc.flatten) := by
  induction ns generalizing acc with
  | nil => simp
  | cons n rest ih =>
    have hidx : __hs_index n.hash c < acc.length := by
      rw [hlen]; exact __hs_index_lt _ _ hc
    have hstep : ((__hs_rehash_node c acc n).flatten).Perm (n :: acc.flatten) :=
      flatten_set_cons_perm acc (__hs_index n.hash c) n hidx
    have hlen' : (__hs_rehash_node c acc n).length = c := by
      unfold __hs_rehash_node
      simp [List.length_set, hlen]
    have h1 := ih (__hs_rehash_node c acc n) hlen'
    have h2 : (rest ++ (__hs_rehash_node c acc n).flatten).Perm
        (rest ++ (n :: acc.flatten)) := List.Perm.append_left rest hstep
    have h3 : (rest ++ (n :: acc.flatten)).Perm (n :: (rest ++ acc.flatten)) :=
      List.perm_middle
    simpa using (h1.trans h2).trans h3

theorem rehash_placed {α : Type} (c : Nat) (ns : List (HSNode α))
    (acc : List (List (HSNode α)))
    (hacc : ∀ j, ∀ m ∈ acc.getD j [], __hs_index m.hash c = j) :
    ∀ j, ∀ m ∈ (ns.foldl (__hs_rehash_node c) acc).getD j [],
      __hs_index m.hash c = j := by
  induction ns generalizing acc with
  | nil => exact hacc
  | cons n rest ih =>
    refine ih (__hs_rehash_node c acc n) ?_
    intro j m hm
    unfold __hs_rehash_node at hm
    rw [getD_set] at hm
    by_cases hcond : __hs_index n.hash c = j ∧ __hs_index n.hash c < acc.length
    · rw [if_pos hcond] at hm
      rcases List.mem_cons.1 hm with rfl | hm'
      · exact hcond.1
      · rw [← hcond.1]
        exact hacc _ m hm'
    · rw [if_neg hcond] at hm
      exact hacc j m hm

theorem __hs_resize_some_eq {α : Type} {hs hs' : HSet α} {c : Nat}
    (H : __hs_resize hs c = some hs') :
    hs.capacity < c ∧
    hs' = { hs with
      buckets := hs.buckets.flatten.foldl (__hs_rehash_node c)
        (List.replicate c []),
      capacity := c } := by
  unfold __hs_resize at H
  by_cases hc : c ≤ hs.capacity
  · rw [if_pos hc] at H
    exact absurd H (by simp)
  · rw [if_neg hc] at H
    exact ⟨by omega, (Option.some_injective _ H).symm⟩

theorem resize_flatten_perm {α : Type} {hs hs' : HSet α} {c : Nat}
    (H : __hs_resize hs c = some hs') :
    (hs'.buckets.flatten).Perm hs.buckets.flatten := by
  obtain ⟨hlt, rfl⟩ := __hs_resize_some_eq H
  have := rehash_flatten_perm c (by omega) hs.buckets.flatten
    (List.replicate c []) (by simp)
  simpa [flatten_replicate_nil] using this

theorem resize_placed {α : Type} {hs hs' : HSet α} {c : Nat}
    (H : __hs_resize hs c = some hs') :
    ∀ j, ∀ m ∈ bucketAt hs' j, __hs_index m.hash hs'.capacity = j := by
  obtain ⟨hlt, rfl⟩ := __hs_resize_some_eq H
  intro j m hm
  exact rehash_placed c hs.buckets.flatten (List.replicate c [])
    (by intro j m hm; rw [getD_replicate_nil] at hm; simp at hm) j m hm

theorem resize_buckets_len {α : Type} {hs hs' : HSet α} {c : Nat}
    (H : __hs_resize hs c = some hs') :
    hs'.buckets.length = hs'.capacity := by
  obtain ⟨hlt, rfl⟩ := __hs_resize_some_eq H
  simp [rehash_length]

theorem resize_contains_forward {α : Type} {hs hs' : HSet α} {c : Nat}
    (H : __hs_resize hs c = some hs') (k : α)
    (hk : hs_contains hs k = true) : hs_contains hs' k = true := by
  have hfields := (__hs_resize_some_eq H).2
  unfold hs_contains __hs_contains at hk ⊢
  rw [find_target_isSome_iff] at hk ⊢
  rcases hk with ⟨n0, hn0, hmatch⟩
  have hmem : n0 ∈ hs.buckets.flatten := mem_bucketAt_flatten hs _ hn0
  have hmem' : n0 ∈ hs'.buckets.flatten :=
    ((resize_flatten_perm H).mem_iff).2 hmem
  rcases mem_flatten_bucket hs' hmem' with ⟨j, hjlen, hjmem⟩
  have hj : __hs_index n0.hash hs'.capacity = j := resize_placed H j n0 hjmem
  have hhash : n0.hash = __hs_hash hs k := by
    have := hmatch
    unfold nodeMatches at this
    simp at this
    exact this.1
  have hsame_hash : __hs_hash hs' k = __hs_hash hs k := by
    rw [hfields]
    rfl
  have hsame_cmp : hs'.cmp = hs.cmp := by rw [hfields]
  refine ⟨n0, ?_, ?_⟩
  · rw [hsame_hash, ← hhash, hj]
    exact hjmem
  · rw [hsame_cmp, hsame_hash]
    exact hmatch

theorem resize_inv {α : Type} {hs hs' : HSet α} {c : Nat}
    (hsymm : ∀ a b, hs.cmp a b = 0 → hs.cmp b a = 0)
    (hinv : HSInv hs) (H : __hs_resize hs c = some hs') : HSInv hs' := by
  obtain ⟨hesz, hcap, hlen, hcount, hcached, hplaced, hnodup⟩ := hinv
  have hperm := resize_flatten_perm H
  have hplaced' := resize_placed H
  have hblen := resize_buckets_len H
  obtain ⟨hlt, he⟩ := __hs_resize_some_eq H
  refine ⟨?_, ?_, ?_, ?_, ?_, ?_, ?_⟩
  · rw [he]; exact hesz
  · have hc : 0 < c := by omega
    rw [he]; exact hc
  · exact hblen
  · have h1 : hs'.count = hs.count := by rw [he]
    rw [h1, hcount, hperm.length_eq]
  · have h2 : hs'.hasher = hs.hasher := by rw [he]
    have h3 : hs'.seed_0 = hs.seed_0 := by rw [he]
    have h4 : hs'.seed_1 = hs.seed_1 := by rw [he]
    intro n hn
    rw [h2, h3, h4]
    exact hcached n (hperm.mem_iff.1 hn)
  · intro i hi n hn
    exact hplaced' i n hn
  · have h5 : hs'.cmp = hs.cmp := by rw [he]
    have hsymm' : ∀ {x y : HSNode α},
        hs.cmp x.key y.key ≠ 0 → hs.cmp y.key x.key ≠ 0 := by
      intro x y hxy hyx
      exact hxy (hsymm _ _ hyx)
    rw [h5]
    exact hnodup.perm hperm.symm fun h => hsymm' h

/-! ### Key classes: the mathematical contents of a set -/

section Classes

variable {α : Type} (cmp : α → α → Int) (hasher : α → Nat → Nat → Nat)
variable [PolicyOK cmp hasher]

theorem class_eq_iff (a b : α) :
    (Quotient.mk (pSetoid cmp hasher) a = Quotient.mk (pSetoid cmp hasher) b)
      ↔ cmp a b = 0 :=
  Quotient.eq

theorem mem_listClasses_iff (ks : List α) (x : Quotient (pSetoid cmp hasher)) :
    x ∈ listClasses cmp hasher ks ↔
      ∃ k ∈ ks, Quotient.mk (pSetoid cmp hasher) k = x := by
  simp [listClasses, List.mem_toFinset, List.mem_map]

theorem mem_keyClasses_iff (hs : HSet α) (k : α) :
    Quotient.mk (pSetoid cmp hasher) k ∈ keyClasses cmp hasher hs ↔
      ∃ n ∈ hs.buckets.flatten, cmp n.key k = 0 := by
  simp only [keyClasses, List.mem_toFinset, List.mem_map]
  constructor
  · rintro ⟨n, hn, he⟩
    exact ⟨n, hn, (class_eq_iff cmp hasher n.key k).1 he⟩
  · rintro ⟨n, hn, he⟩
    exact ⟨n, hn, (class_eq_iff cmp hasher n.key k).2 he⟩

theorem node_class_mem (hs : HSet α) {n : HSNode α}
    (hn : n ∈ hs.buckets.flatten) :
    Quotient.mk (pSetoid cmp hasher) n.key ∈ keyClasses cmp hasher hs := by
  simp only [keyClasses, List.mem_toFinset, List.mem_map]
  exact ⟨n, hn, rfl⟩

theorem contains_iff {hs : HSet α} (hinv : HSInv hs) (hc : hs.cmp = cmp)
    (hh : hs.hasher = hasher) (k : α) :
    hs_contains hs k = true ↔
      Quotient.mk (pSetoid cmp hasher) k ∈ keyClasses cmp hasher hs := by
  obtain ⟨hesz, hcap, hlen, hcount, hcached, hplaced, hnodup⟩ := hinv
  unfold hs_contains __hs_contains
  rw [find_target_isSome_iff, mem_keyClasses_iff]
  constructor
  · rintro ⟨n, hn, hmatch⟩
    unfold nodeMatches at hmatch
    simp only [Bool.and_eq_true, beq_iff_eq] at hmatch
    refine ⟨n, mem_bucketAt_flatten hs _ hn, ?_⟩
    rw [← hc]
    exact hmatch.2
  · rintro ⟨n, hn, hcmp0⟩
    rcases mem_flatten_bucket hs hn with ⟨i, hi, hbmem⟩
    have hidx : __hs_index n.hash hs.capacity = i := by
      rw [hlen] at hi
      exact hplaced i (by rw [hlen]; exact hi) n hbmem
    have hnh : n.hash = __hs_hash hs k := by
      have h1 : n.hash = hs.hasher n.key hs.seed_0 hs.seed_1 := hcached n hn
      have h2 : hasher n.key hs.seed_0 hs.seed_1 = hasher k hs.seed_0 hs.seed_1 :=
        @PolicyOK.hash_congr α cmp hasher _ n.key k hs.seed_0 hs.seed_1 hcmp0
      rw [h1, hh, h2]
      unfold __hs_hash
      rw [hh]
    refine ⟨n, ?_, ?_⟩
    · rw [← hnh, hidx]
      exact hbmem
    · unfold nodeMatches
      simp only [Bool.and_eq_true, beq_iff_eq]
      exact ⟨hnh, by rw [hc]; exact hcmp0⟩

theorem count_eq_card {hs : HSet α} (hinv : HSInv hs) (hc : hs.cmp = cmp) :
    hs.count = (keyClasses cmp hasher hs).card := by
  obtain ⟨hesz, hcap, hlen, hcount, hcached, hplaced, hnodup⟩ := hinv
  have hnd : (hs.buckets.flatten.map
      (fun n => Quotient.mk (pSetoid cmp hasher) n.key)).Nodup := by
    rw [List.Nodup, List.pairwise_map]
    refine hnodup.imp ?_
    intro n m hnm he
    rw [hc] at hnm
    exact hnm ((class_eq_iff cmp hasher n.key m.key).1 he)
  unfold keyClasses
  rw [List.toFinset_card_of_nodup hnd, List.length_map]
  exact hcount

end Classes

/-! ### Insert lemmas -/

theorem hs_insert_eq {α : Type} (hs : HSet α) (k : α) :
    hs_insert hs k =
      if hs_contains hs k
      then (false, { hs with mut_count := hs.mut_count + 1 })
      else (true, __hs_insert_grow (__hs_insert_node hs k)) := rfl

theorem toFinset_perm {β : Type} [DecidableEq β] {l l' : List β}
    (h : l.Perm l') : l.toFinset = l'.toFinset := by
  ext x
  simp [List.mem_toFinset, h.mem_iff]

theorem keyClasses_eq_of_perm {α : Type} (cmp : α → α → Int)
    (hasher : α → Nat → Nat → Nat) [PolicyOK cmp hasher] {a b : HSet α}
    (h : (a.buckets.flatten).Perm b.buckets.flatten) :
    keyClasses cmp hasher a = keyClasses cmp hasher b :=
  toFinset_perm (h.map _)

theorem insert_node_spec {α : Type} (cmp : α → α → Int)
    (hasher : α → Nat → Nat → Nat) [PolicyOK cmp hasher] {hs : HSet α} (k : α)
    (hinv : HSInv hs) (hc : hs.cmp = cmp) (hh : hs.hasher = hasher)
    (hcont : hs_contains hs k = false) :
    HSInv (__hs_insert_node hs k) ∧
    ((__hs_insert_node hs k).buckets.flatten).Perm
      ((⟨k, __hs_hash hs k⟩ : HSNode α) :: hs.buckets.flatten) ∧
    keyClasses cmp hasher (__hs_insert_node hs k)
      = insert (Quotient.mk (pSetoid cmp hasher) k)
          (keyClasses cmp hasher hs) := by
  have hinv' := hinv
  obtain ⟨hesz, hcap, hlen, hcount, hcached, hplaced, hnodup⟩ := hinv'
  have hidxlt : __hs_index (__hs_hash hs k) hs.capacity < hs.buckets.length := by
    rw [hlen]
    exact __hs_index_lt _ _ hcap
  have hbeq : (__hs_insert_node hs k).buckets
      = hs.buckets.set (__hs_index (__hs_hash hs k) hs.capacity)
          ((⟨k, __hs_hash hs k⟩ : HSNode α)
            :: bucketAt hs (__hs_index (__hs_hash hs k) hs.capacity)) := rfl
  have hperm : ((__hs_insert_node hs k).buckets.flatten).Perm
      ((⟨k, __hs_hash hs k⟩ : HSNode α) :: hs.buckets.flatten) := by
    rw [hbeq]
    exact flatten_set_cons_perm hs.buckets _ _ hidxlt
  have hfresh : ∀ m ∈ hs.buckets.flatten, hs.cmp m.key k ≠ 0 := by
    intro m hm hmk
    have hkc : Quotient.mk (pSetoid cmp hasher) k ∈ keyClasses cmp hasher hs :=
      (mem_keyClasses_iff cmp hasher hs k).2 ⟨m, hm, by rw [← hc]; exact hmk⟩
    have := (contains_iff cmp hasher hinv hc hh k).2 hkc
    rw [hcont] at this
    exact Bool.false_ne_true this
  have hfresh2 : ∀ m ∈ hs.buckets.flatten, hs.cmp k m.key ≠ 0 := by
    intro m hm hkm
    refine hfresh m hm ?_
    rw [hc] at hkm ⊢
    exact PolicyOK.cmp_symm hasher k m.key hkm
  have hsymm : ∀ {x y : HSNode α},
      hs.cmp x.key y.key ≠ 0 → hs.cmp y.key x.key ≠ 0 := by
    intro x y hxy hyx
    refine hxy ?_
    rw [hc] at hyx ⊢
    exact PolicyOK.cmp_symm hasher y.key x.key hyx
  refine ⟨⟨hesz, hcap, ?_, ?_, ?_, ?_, ?_⟩, hperm, ?_⟩
  · rw [hbeq, List.length_set, hlen]
    rfl
  · have h1 := hperm.length_eq
    simp only [List.length_cons] at h1
    show hs.count + 1 = _
    omega
  · intro m hm
    rcases List.mem_cons.1 (hperm.mem_iff.1 hm) with rfl | hm'
    · rfl
    · exact hcached m hm'
  · intro i hi m hm
    show __hs_index m.hash hs.capacity = i
    have hbm : m ∈ (hs.buckets.set (__hs_index (__hs_hash hs k) hs.capacity)
        ((⟨k, __hs_hash hs k⟩ : HSNode α)
          :: bucketAt hs (__hs_index (__hs_hash hs k) hs.capacity))).getD i [] := by
      have : bucketAt (__hs_insert_node hs k) i
          = (hs.buckets.set (__hs_index (__hs_hash hs k) hs.capacity)
            ((⟨k, __hs_hash hs k⟩ : HSNode α)
              :: bucketAt hs (__hs_index (__hs_hash hs k) hs.capacity))).getD i [] := by
        unfold bucketAt
        rw [hbeq]
        rfl
      rw [← this]
      exact hm
    rw [getD_set] at hbm
    by_cases hcond : __hs_index (__hs_hash hs k) hs.capacity = i ∧
        __hs_index (__hs_hash hs k) hs.capacity < hs.buckets.length
    · rw [if_pos hcond] at hbm
      rcases List.mem_cons.1 hbm with rfl | hbm'
      · exact hcond.1
      · rw [← hcond.1]
        exact hplaced _ (by omega) m hbm'
    · rw [if_neg hcond] at hbm
      have hilen : i < hs.buckets.length := by
        have : (__hs_insert_node hs k).buckets.length = hs.buckets.length := by
          rw [hbeq]
          simp [List.length_set]
        omega
      exact hplaced i hilen m hbm
  · show List.Pairwise _ (__hs_insert_node hs k).buckets.flatten
    have hpw : List.Pairwise (fun n m => hs.cmp n.key m.key ≠ 0)
        ((⟨k, __hs_hash hs k⟩ : HSNode α) :: hs.buckets.flatten) := by
      rw [List.pairwise_cons]
      exact ⟨fun m hm => hfresh2 m hm, hnodup⟩
    exact hpw.perm hperm.symm fun h => hsymm h
  · have h1 : keyClasses cmp hasher (__hs_insert_node hs k)
        = (((⟨k, __hs_hash hs k⟩ : HSNode α) :: hs.buckets.flatten).map
            (fun n => Quotient.mk (pSetoid cmp hasher) n.key)).toFinset :=
      toFinset_perm (hperm.map _)
    rw [h1]
    simp [List.toFinset_cons, keyClasses]

theorem grow_spec {α : Type} (cmp : α → α → Int)
    (hasher : α → Nat → Nat → Nat) [PolicyOK cmp hasher] {hs2 : HSet α}
    (hinv2 : HSInv hs2) (hc2 : hs2.cmp = cmp) :
    HSInv (__hs_insert_grow hs2) ∧
    keyClasses cmp hasher (__hs_insert_grow hs2) = keyClasses cmp hasher hs2 ∧
    (__hs_insert_grow hs2).cmp = hs2.cmp ∧
    (__hs_insert_grow hs2).hasher = hs2.hasher ∧
    (__hs_insert_grow hs2).element_size = hs2.element_size ∧
    (__hs_insert_grow hs2).seed_0 = hs2.seed_0 ∧
    (__hs_insert_grow hs2).seed_1 = hs2.seed_1 ∧
    (__hs_insert_grow hs2).load_factor = hs2.load_factor ∧
    (__hs_insert_grow hs2).mut_count = hs2.mut_count ∧
    (__hs_insert_grow hs2).count = hs2.count := by
  have hsymm : ∀ a b : α, hs2.cmp a b = 0 → hs2.cmp b a = 0 := by
    intro a b hab
    rw [hc2] at hab ⊢
    exact PolicyOK.cmp_symm hasher a b hab
  unfold __hs_insert_grow
  by_cases hgrow : hs2.load_factor < mkRat hs2.count hs2.capacity
  · rw [if_pos hgrow]
    cases hres : __hs_resize hs2 (hs2.capacity * 2) with
    | none => exact ⟨hinv2, rfl, rfl, rfl, rfl, rfl, rfl, rfl, rfl, rfl⟩
    | some r =>
      obtain ⟨hlt, he⟩ := __hs_resize_some_eq hres
      refine ⟨resize_inv hsymm hinv2 hres, ?_, ?_, ?_, ?_, ?_, ?_, ?_, ?_, ?_⟩
      · exact keyClasses_eq_of_perm cmp hasher (resize_flatten_perm hres)
      all_goals rw [he]
  · rw [if_neg hgrow]
    exact ⟨hinv2, rfl, rfl, rfl, rfl, rfl, rfl, rfl, rfl, rfl⟩

theorem insert_spec {α : Type} (cmp : α → α → Int)
    (hasher : α → Nat → Nat → Nat) [PolicyOK cmp hasher] {hs : HSet α} (k : α)
    (hinv : HSInv hs) (hc : hs.cmp = cmp) (hh : hs.hasher = hasher) :
    HSInv (hs_insert hs k).2 ∧
    keyClasses cmp hasher (hs_insert hs k).2
      = insert (Quotient.mk (pSetoid cmp hasher) k) (keyClasses cmp hasher hs) ∧
    ((hs_insert hs k).1 = true ↔ hs_contains hs k = false) ∧
    (hs_insert hs k).2.cmp = cmp ∧
    (hs_insert hs k).2.hasher = hasher ∧
    (hs_insert hs k).2.element_size = hs.element_size ∧
    (hs_insert hs k).2.load_factor = hs.load_factor ∧
    (hs_insert hs k).2.mut_count = hs.mut_count + 1 := by
  cases hcont : hs_contains hs k with
  | true =>
    rw [hs_insert_eq, if_pos hcont]
    refine ⟨hinv, ?_, by simp, hc, hh, rfl, rfl, rfl⟩
    have hmem : Quotient.mk (pSetoid cmp hasher) k ∈ keyClasses cmp hasher hs :=
      (contains_iff cmp hasher hinv hc hh k).1 hcont
    show keyClasses cmp hasher hs = _
    exact (Finset.insert_eq_self.2 hmem).symm
  | false =>
    rw [hs_insert_eq, if_neg (by simp [hcont])]
    obtain ⟨hinvN, hpermN, hFN⟩ :=
      insert_node_spec cmp hasher k hinv hc hh hcont
    have hcN : (__hs_insert_node hs k).cmp = cmp := hc
    obtain ⟨hinvG, hFG, hg1, hg2, hg3, hg4, hg5, hg6, hg7, hg8⟩ :=
      grow_spec cmp hasher hinvN hcN
    refine ⟨hinvG, ?_, by simp [hcont], ?_, ?_, ?_, ?_, ?_⟩
    · show keyClasses cmp hasher (__hs_insert_grow (__hs_insert_node hs k)) = _
      rw [hFG, hFN]
    · show (__hs_insert_grow (__hs_insert_node hs k)).cmp = cmp
      rw [hg1]
      exact hc
    · show (__hs_insert_grow (__hs_insert_node hs k)).hasher = hasher
      rw [hg2]
      exact hh
    · show (__hs_insert_grow (__hs_insert_node hs k)).element_size = hs.element_size
      rw [hg3]
      rfl
    · show (__hs_insert_grow (__hs_insert_node hs k)).load_factor = hs.load_factor
      rw [hg6]
      rfl
    · show (__hs_insert_grow (__hs_insert_node hs k)).mut_count = hs.mut_count + 1
      rw [hg7]
      rfl

/-! ### Remove lemmas -/

theorem hs_remove_eq {α : Type} (hs : HSet α) (k : α) :
    hs_remove hs k =
      match __hs_find_target hs.cmp k (__hs_hash hs k)
          (bucketAt hs (__hs_index (__hs_hash hs k) hs.capacity)) with
      | none => (false, { hs with mut_count := hs.mut_count + 1 })
      | some bucket => (true, { hs with
          mut_count := hs.mut_count + 1,
          buckets := hs.buckets.set
            (__hs_index (__hs_hash hs k) hs.capacity) bucket,
          count := hs.count - 1 }) := rfl

theorem contains_eq_isSome_find {α : Type} (hs : HSet α) (k : α) :
    hs_contains hs k = (__hs_find_target hs.cmp k (__hs_hash hs k)
      (bucketAt hs (__hs_index (__hs_hash hs k) hs.capacity))).isSome := rfl

theorem remove_spec {α : Type} (cmp : α → α → Int)
    (hasher : α → Nat → Nat → Nat) [PolicyOK cmp hasher] {hs : HSet α} (k : α)
    (hinv : HSInv hs) (hc : hs.cmp = cmp) (hh : hs.hasher = hasher) :
    HSInv (hs_remove hs k).2 ∧
    keyClasses cmp hasher (hs_remove hs k).2
      = keyClasses cmp hasher hs \ {Quotient.mk (pSetoid cmp hasher) k} ∧
    ((hs_remove hs k).1 = hs_contains hs k) ∧
    (hs_remove hs k).2.cmp = cmp ∧
    (hs_remove hs k).2.hasher = hasher ∧
    (hs_remove hs k).2.mut_count = hs.mut_count + 1 := by
  have hinv' := hinv
  obtain ⟨hesz, hcap, hlen, hcount, hcached, hplaced, hnodup⟩ := hinv'
  have hsymm : ∀ {x y : HSNode α},
      hs.cmp x.key y.key ≠ 0 → hs.cmp y.key x.key ≠ 0 := by
    intro x y hxy hyx
    refine hxy ?_
    rw [hc] at hyx ⊢
    exact PolicyOK.cmp_symm hasher y.key x.key hyx
  cases hft : __hs_find_target hs.cmp k (__hs_hash hs k)
      (bucketAt hs (__hs_index (__hs_hash hs k) hs.capacity)) with
  | none =>
    rw [hs_remove_eq, hft]
    have hcont : hs_contains hs k = false := by
      rw [contains_eq_isSome_find, hft]
      rfl
    have hnotin : Quotient.mk (pSetoid cmp hasher) k ∉ keyClasses cmp hasher hs := by
      intro hmem
      have := (contains_iff cmp hasher hinv hc hh k).2 hmem
      rw [hcont] at this
      exact Bool.false_ne_true this
    refine ⟨hinv, ?_, by rw [hcont], hc, hh, rfl⟩
    show keyClasses cmp hasher hs = _
    rw [Finset.sdiff_singleton_eq_erase, Finset.erase_eq_of_not_mem hnotin]
  | some bucket =>
    rw [hs_remove_eq, hft]
    have hcont : hs_contains hs k = true := by
      rw [contains_eq_isSome_find, hft]
      rfl
    obtain ⟨pre, n0, post, hdecomp, hbucket, hmatch⟩ := find_target_some _ _ _ hft
    unfold nodeMatches at hmatch
    simp only [Bool.and_eq_true, beq_iff_eq] at hmatch
    rw [hc] at hmatch
    have hidxlt : __hs_index (__hs_hash hs k) hs.capacity < hs.buckets.length := by
      rw [hlen]
      exact __hs_index_lt _ _ hcap
    have hold : hs.buckets.flatten
        = (hs.buckets.take (__hs_index (__hs_hash hs k) hs.capacity)).flatten
          ++ (pre ++ n0 :: post)
          ++ (hs.buckets.drop (__hs_index (__hs_hash hs k) hs.capacity + 1)).flatten := by
      have := flatten_decomp hs.buckets _ hidxlt
      rw [this]
      unfold bucketAt at hdecomp
      rw [hdecomp]
    have hnew : (hs.buckets.set (__hs_index (__hs_hash hs k) hs.capacity)
        bucket).flatten
        = (hs.buckets.take (__hs_index (__hs_hash hs k) hs.capacity)).flatten
          ++ (pre ++ post)
          ++ (hs.buckets.drop (__hs_index (__hs_hash hs k) hs.capacity + 1)).flatten := by
      rw [flatten_set hs.buckets _ _ hidxlt, hbucket]
    have hperm : (hs.buckets.flatten).Perm
        (n0 :: (hs.buckets.set (__hs_index (__hs_hash hs k) hs.capacity)
          bucket).flatten) := by
      rw [hold, hnew]
      have e1 : (hs.buckets.take (__hs_index (__hs_hash hs k) hs.capacity)).flatten
            ++ (pre ++ n0 :: post)
            ++ (hs.buckets.drop (__hs_index (__hs_hash hs k) hs.capacity + 1)).flatten
          = ((hs.buckets.take (__hs_index (__hs_hash hs k) hs.capacity)).flatten ++ pre)
            ++ n0 :: (post
              ++ (hs.buckets.drop (__hs_index (__hs_hash hs k) hs.capacity + 1)).flatten) := by
        simp [List.append_assoc]
      have e2 : (hs.buckets.take (__hs_index (__hs_hash hs k) hs.capacity)).flatten
            ++ (pre ++ post)
            ++ (hs.buckets.drop (__hs_index (__hs_hash hs k) hs.capacity + 1)).flatten
          = ((hs.buckets.take (__hs_index (__hs_hash hs k) hs.capacity)).flatten ++ pre)
            ++ (post
              ++ (hs.buckets.drop (__hs_index (__hs_hash hs k) hs.capacity + 1)).flatten) := by
        simp [List.append_assoc]
      rw [e1, e2]
      exact List.perm_middle
    have hpwcons : List.Pairwise (fun n m => hs.cmp n.key m.key ≠ 0)
        (n0 :: (hs.buckets.set (__hs_index (__hs_hash hs k) hs.capacity)
          bucket).flatten) :=
      hnodup.perm hperm fun h => hsymm h
    have hpwnew := (List.pairwise_cons.1 hpwcons).2
    have hn0fresh := (List.pairwise_cons.1 hpwcons).1
    have hknotin : ∀ m ∈ (hs.buckets.set
        (__hs_index (__hs_hash hs k) hs.capacity) bucket).flatten,
        cmp m.key k ≠ 0 := by
      intro m hm hmk
      refine hn0fresh m hm ?_
      rw [hc]
      exact PolicyOK.cmp_trans hasher n0.key k m.key hmatch.2
        (PolicyOK.cmp_symm hasher m.key k hmk)
    refine ⟨⟨hesz, hcap, ?_, ?_, ?_, ?_, hpwnew⟩, ?_, by rw [hcont], hc, hh, rfl⟩
    · show (hs.buckets.set _ bucket).length = hs.capacity
      rw [List.length_set, hlen]
    · show hs.count - 1 = (hs.buckets.set
        (__hs_index (__hs_hash hs k) hs.capacity) bucket).flatten.length
      have h1 := hperm.length_eq
      simp only [List.length_cons] at h1
      omega
    · intro m hm
      have hmold : m ∈ hs.buckets.flatten :=
        hperm.mem_iff.2 (List.mem_cons_of_mem n0 hm)
      exact hcached m hmold
    · intro i hi m hm
      show __hs_index m.hash hs.capacity = i
      have hm' : m ∈ (hs.buckets.set (__hs_index (__hs_hash hs k) hs.capacity)
          bucket).getD i [] := hm
      rw [getD_set] at hm'
      by_cases hcond : __hs_index (__hs_hash hs k) hs.capacity = i ∧
          __hs_index (__hs_hash hs k) hs.capacity < hs.buckets.length
      · rw [if_pos hcond] at hm'
        have hmorig : m ∈ bucketAt hs (__hs_index (__hs_hash hs k) hs.capacity) := by
          rw [hdecomp]
          have hmpp : m ∈ pre ++ post := by
            rw [← hbucket]
            exact hm'
          rcases List.mem_append.1 hmpp with h | h
          · exact List.mem_append.2 (Or.inl h)
          · exact List.mem_append.2 (Or.inr (List.mem_cons_of_mem n0 h))
        rw [← hcond.1]
        exact hplaced _ (by omega) m hmorig
      · rw [if_neg hcond] at hm'
        have hilen : i < hs.buckets.length := by
          have hls : (hs.buckets.set (__hs_index (__hs_hash hs k) hs.capacity)
              bucket).length = hs.buckets.length := List.length_set _ _ _
          rw [← hls]
          exact hi
        exact hplaced i hilen m hm'
    · show keyClasses cmp hasher _ = _
      have hFold : keyClasses cmp hasher hs
          = insert (Quotient.mk (pSetoid cmp hasher) k)
            ((((hs.buckets.set (__hs_index (__hs_hash hs k) hs.capacity)
              bucket).flatten).map
                (fun n => Quotient.mk (pSetoid cmp hasher) n.key)).toFinset) := by
      -- classes of the old flatten = classes of n0 :: new flatten, and n0's class is k's
        have h1 : keyClasses cmp hasher hs
            = ((n0 :: (hs.buckets.set (__hs_index (__hs_hash hs k) hs.capacity)
              bucket).flatten).map
                (fun n => Quotient.mk (pSetoid cmp hasher) n.key)).toFinset :=
          toFinset_perm (hperm.map _)
        rw [h1]
        simp only [List.map_cons, List.toFinset_cons]
        have hkey : Quotient.mk (pSetoid cmp hasher) n0.key
            = Quotient.mk (pSetoid cmp hasher) k :=
          (class_eq_iff cmp hasher n0.key k).2 hmatch.2
        rw [hkey]
      have hknotF : Quotient.mk (pSetoid cmp hasher) k ∉
          (((hs.buckets.set (__hs_index (__hs_hash hs k) hs.capacity)
            bucket).flatten).map
              (fun n => Quotient.mk (pSetoid cmp hasher) n.key)).toFinset := by
        intro hmem
        simp only [List.mem_toFinset, List.mem_map] at hmem
        rcases hmem with ⟨m, hm, he⟩
        exact hknotin m hm ((class_eq_iff cmp hasher m.key k).1 he)
      rw [hFold]
      ext x
      simp only [Finset.mem_sdiff, Finset.mem_insert, Finset.mem_singleton]
      constructor
      · intro hx
        constructor
        · exact Or.inr hx
        · intro hxk
          rw [hxk] at hx
          exact hknotF hx
      · rintro ⟨hx | hx, hxk⟩
        · exact absurd hx hxk
        · exact hx

/-! ### Loop lemmas for the algebra operations and bulk constructors -/

theorem insert_where_spec {α : Type} (cmp : α → α → Int)
    (hasher : α → Nat → Nat → Nat) [PolicyOK cmp hasher] (cond : α → Bool)
    (ks : List α) {acc : HSet α}
    (hinv : HSInv acc) (hc : acc.cmp = cmp) (hh : acc.hasher = hasher) :
    HSInv (__hs_insert_where cond acc ks) ∧
    keyClasses cmp hasher (__hs_insert_where cond acc ks)
      = keyClasses cmp hasher acc ∪ listClasses cmp hasher (ks.filter cond) ∧
    (__hs_insert_where cond acc ks).cmp = cmp ∧
    (__hs_insert_where cond acc ks).hasher = hasher ∧
    (__hs_insert_where cond acc ks).element_size = acc.element_size := by
  induction ks generalizing acc with
  | nil =>
    refine ⟨hinv, ?_, hc, hh, rfl⟩
    simp [__hs_insert_where, listClasses]
  | cons k ks ih =>
    have hstep : __hs_insert_where cond acc (k :: ks)
        = __hs_insert_where cond
            (if cond k then (hs_insert acc k).2 else acc) ks := rfl
    rw [hstep]
    by_cases hck : cond k
    · rw [if_pos hck]
      have hfilter : (k :: ks).filter cond = k :: ks.filter cond := by
        simp [List.filter_cons, hck]
      rw [hfilter]
      obtain ⟨hinv1, hF1, _, hc1, hh1, hesz1, _, _⟩ :=
        insert_spec cmp hasher k hinv hc hh
      obtain ⟨hinvR, hFR, hcR, hhR, heszR⟩ := ih hinv1 hc1 hh1
      refine ⟨hinvR, ?_, hcR, hhR, by rw [heszR, hesz1]⟩
      rw [hFR, hF1]
      show _ = _ ∪ (((k :: ks.filter cond).map
        (fun x => Quotient.mk (pSetoid cmp hasher) x)).toFinset)
      rw [List.map_cons, List.toFinset_cons]
      rw [Finset.insert_union, Finset.union_insert]
      rfl
    · rw [if_neg hck]
      have hfilter : (k :: ks).filter cond = ks.filter cond := by
        simp [List.filter_cons, hck]
      rw [hfilter]
      exact ih hinv hc hh

theorem insert_all_some_spec {α : Type} (cmp : α → α → Int)
    (hasher : α → Nat → Nat → Nat) [PolicyOK cmp hasher] {ks : List α}
    {hs r : HSet α}
    (hinv : HSInv hs) (hc : hs.cmp = cmp) (hh : hs.hasher = hasher)
    (H : __hs_insert_all hs ks = some r) :
    HSInv r ∧
    keyClasses cmp hasher r
      = keyClasses cmp hasher hs ∪ listClasses cmp hasher ks ∧
    r.cmp = cmp ∧ r.hasher = hasher ∧ r.element_size = hs.element_size := by
  induction ks generalizing hs with
  | nil =>
    have : hs = r := by
      simpa [__hs_insert_all] using H
    subst this
    refine ⟨hinv, ?_, hc, hh, rfl⟩
    simp [listClasses]
  | cons k ks ih =>
    rw [show __hs_insert_all hs (k :: ks)
        = match hs_insert hs k with
          | (true, hs1) => __hs_insert_all hs1 ks
          | (false, _) => none from rfl] at H
    rcases hp : hs_insert hs k with ⟨b, hs1⟩
    rw [hp] at H
    cases b with
    | false => simp at H
    | true =>
      simp only at H
      obtain ⟨hinv1, hF1, _, hc1, hh1, hesz1, _, _⟩ :=
        insert_spec cmp hasher k hinv hc hh
      rw [hp] at hinv1 hF1 hc1 hh1 hesz1
      obtain ⟨hinvR, hFR, hcR, hhR, heszR⟩ := ih hinv1 hc1 hh1 H
      refine ⟨hinvR, ?_, hcR, hhR, by rw [heszR]; exact hesz1⟩
      rw [hFR, hF1]
      show _ = _ ∪ (((k :: ks).map
        (fun x => Quotient.mk (pSetoid cmp hasher) x)).toFinset)
      rw [List.map_cons, List.toFinset_cons]
      rw [Finset.insert_union, Finset.union_insert]
      rfl

theorem insert_all_succeeds {α : Type} (cmp : α → α → Int)
    (hasher : α → Nat → Nat → Nat) [PolicyOK cmp hasher] {ks : List α}
    {hs : HSet α}
    (hinv : HSInv hs) (hc : hs.cmp = cmp) (hh : hs.hasher = hasher)
    (hpw : ks.Pairwise (fun x y => cmp x y ≠ 0))
    (hfresh : ∀ x ∈ ks,
      Quotient.mk (pSetoid cmp hasher) x ∉ keyClasses cmp hasher hs) :
    ∃ r, __hs_insert_all hs ks = some r := by
  induction ks generalizing hs with
  | nil => exact ⟨hs, rfl⟩
  | cons k ks ih =>
    obtain ⟨hinv1, hF1, hb1, hc1, hh1, _, _, _⟩ :=
      insert_spec cmp hasher k hinv hc hh
    have hck : hs_contains hs k = false := by
      cases hcc : hs_contains hs k with
      | false => rfl
      | true =>
        exact absurd ((contains_iff cmp hasher hinv hc hh k).1 hcc)
          (hfresh k (List.mem_cons_self k ks))
    have hb : (hs_insert hs k).1 = true := hb1.2 hck
    have hfresh1 : ∀ x ∈ ks, Quotient.mk (pSetoid cmp hasher) x ∉
        keyClasses cmp hasher (hs_insert hs k).2 := by
      intro x hx hmem
      rw [hF1, Finset.mem_insert] at hmem
      rcases hmem with he | hmem
      · have := (List.pairwise_cons.1 hpw).1 x hx
        exact this (((class_eq_iff cmp hasher k x).1 he.symm))
      · exact hfresh x (List.mem_cons_of_mem k hx) hmem
    obtain ⟨r, hr⟩ := ih hinv1 hc1 hh1 (List.pairwise_cons.1 hpw).2 hfresh1
    refine ⟨r, ?_⟩
    rw [show __hs_insert_all hs (k :: ks)
        = match hs_insert hs k with
          | (true, hs1) => __hs_insert_all hs1 ks
          | (false, _) => none from rfl]
    rcases hp : hs_insert hs k with ⟨b, hs1⟩
    rw [hp] at hb
    simp only at hb
    subst hb
    simp only
    rw [← show (hs_insert hs k).2 = hs1 from by rw [hp]]
    exact hr

theorem insert_all_pairwise {α : Type} (cmp : α → α → Int)
    (hasher : α → Nat → Nat → Nat) [PolicyOK cmp hasher] {ks : List α}
    {hs r : HSet α}
    (hinv : HSInv hs) (hc : hs.cmp = cmp) (hh : hs.hasher = hasher)
    (H : __hs_insert_all hs ks = some r) :
    ks.Pairwise (fun x y => cmp x y ≠ 0) ∧
    ∀ x ∈ ks, Quotient.mk (pSetoid cmp hasher) x ∉ keyClasses cmp hasher hs := by
  induction ks generalizing hs with
  | nil => simp
  | cons k ks ih =>
    rw [show __hs_insert_all hs (k :: ks)
        = match hs_insert hs k with
          | (true, hs1) => __hs_insert_all hs1 ks
          | (false, _) => none from rfl] at H
    rcases hp : hs_insert hs k with ⟨b, hs1⟩
    rw [hp] at H
    obtain ⟨hinv1, hF1, hb1, hc1, hh1, _, _, _⟩ :=
      insert_spec cmp hasher k hinv hc hh
    cases b with
    | false => simp at H
    | true =>
      simp only at H
      have hck : hs_contains hs k = false := by
        refine hb1.1 ?_
        rw [hp]
      have hknot : Quotient.mk (pSetoid cmp hasher) k ∉
          keyClasses cmp hasher hs := by
        intro hmem
        have := (contains_iff cmp hasher hinv hc hh k).2 hmem
        rw [hck] at this
        exact Bool.false_ne_true this
      rw [hp] at hinv1 hF1 hc1 hh1
      obtain ⟨hpwks, hfreshks⟩ := ih hinv1 hc1 hh1 H
      refine ⟨List.pairwise_cons.2 ⟨?_, hpwks⟩, ?_⟩
      · intro x hx hkx
        refine hfreshks x hx ?_
        rw [hF1, Finset.mem_insert]
        exact Or.inl ((class_eq_iff cmp hasher x k).2
          (PolicyOK.cmp_symm hasher k x hkx))
      · intro x hx
        rcases List.mem_cons.1 hx with rfl | hx'
        · exact hknot
        · intro hmem
          refine hfreshks x hx' ?_
          rw [hF1, Finset.mem_insert]
          exact Or.inr hmem

theorem new_with_capacity_spec {α : Type} (esz : Nat) (cmp : α → α → Int)
    (hasher : α → Nat → Nat → Nat) [PolicyOK cmp hasher]
    (cap s0 s1 : Nat) (hesz : 0 < esz) :
    ∃ hs, hs_new_with_capacity α esz cmp hasher cap s0 s1 = some hs ∧
      HSInv hs ∧ hs.cmp = cmp ∧ hs.hasher = hasher ∧ hs.count = 0 ∧
      hs.element_size = esz ∧ hs.load_factor = mkRat 3 4 ∧ hs.mut_count = 0 ∧
      keyClasses cmp hasher hs = ∅ := by
  refine ⟨{ buckets := List.replicate (if cap < 4 then 4 else __npo2 cap) []
            count := 0
            capacity := if cap < 4 then 4 else __npo2 cap
            element_size := esz
            seed_0 := s0
            seed_1 := s1
            load_factor := mkRat 3 4
            growth_factor := mkRat 2 1
            cmp := cmp
            hasher := hasher
            mut_count := 0
            collisions := 0 }, ?_, ?_, rfl, rfl, rfl, rfl, rfl, rfl, ?_⟩
  · unfold hs_new_with_capacity
    rw [if_neg (by omega)]
  · have hcap : 0 < (if cap < 4 then 4 else __npo2 cap) := by
      by_cases h4 : cap < 4
      · rw [if_pos h4]; omega
      · rw [if_neg h4]
        unfold __npo2
        by_cases h1 : cap ≤ 1
        · rw [if_pos h1]; omega
        · rw [if_neg h1]
          exact Nat.pos_pow_of_pos _ (by omega)
    refine ⟨hesz, hcap, ?_, ?_, ?_, ?_, ?_⟩
    · simp
    · simp [flatten_replicate_nil]
    · intro n hn
      rw [flatten_replicate_nil] at hn
      simp at hn
    · intro i hi n hn
      unfold bucketAt at hn
      rw [getD_replicate_nil] at hn
      simp at hn
    · rw [flatten_replicate_nil]
      exact List.Pairwise.nil
  · unfold keyClasses
    rw [flatten_replicate_nil]
    simp

/-! ### Mutation-counter and iterator lemmas -/

theorem grow_mut {α : Type} (hs2 : HSet α) :
    (__hs_insert_grow hs2).mut_count = hs2.mut_count := by
  unfold __hs_insert_grow
  by_cases h : hs2.load_factor < mkRat hs2.count hs2.capacity
  · rw [if_pos h]
    cases hres : __hs_resize hs2 (hs2.capacity * 2) with
    | none => rfl
    | some r =>
      obtain ⟨_, he⟩ := __hs_resize_some_eq hres
      rw [he]
  · rw [if_neg h]

theorem hs_insert_mut {α : Type} (hs : HSet α) (k : α) :
    (hs_insert hs k).2.mut_count = hs.mut_count + 1 := by
  rw [hs_insert_eq]
  by_cases hcont : hs_contains hs k
  · rw [if_pos hcont]
  · rw [if_neg hcont]
    show (__hs_insert_grow (__hs_insert_node hs k)).mut_count = _
    rw [grow_mut]
    rfl

theorem hs_remove_mut {α : Type} (hs : HSet α) (k : α) :
    (hs_remove hs k).2.mut_count = hs.mut_count + 1 := by
  rw [hs_remove_eq]
  cases __hs_find_target hs.cmp k (__hs_hash hs k)
      (bucketAt hs (__hs_index (__hs_hash hs k) hs.capacity)) with
  | none => rfl
  | some bucket => rfl

theorem hs_retain_mut {α : Type} (hs : HSet α) (pred : α → Bool) :
    (hs_retain hs pred).mut_count = hs.mut_count + 1 := rfl

theorem hs_clear_mut {α : Type} (hs : HSet α) :
    (hs_clear hs).mut_count = hs.mut_count + 1 := rfl

theorem hs_resize_mut {α : Type} (hs : HSet α) (c : Nat) :
    (hs_resize hs c).2.mut_count = hs.mut_count + 1 := by
  unfold hs_resize
  by_cases h : c < ({ hs with mut_count := hs.mut_count + 1 } : HSet α).capacity
  · rw [if_pos h]
  · rw [if_neg h]
    cases hres : __hs_resize { hs with mut_count := hs.mut_count + 1 } (__npo2 c) with
    | none => rfl
    | some hs2 =>
      obtain ⟨_, he⟩ := __hs_resize_some_eq hres
      show hs2.mut_count = _
      rw [he]

theorem iter_next_stale {α : Type} (hs : HSet α) (it : HSIterator α)
    (h : it.mutations ≠ hs.mut_count) : hs_iter_next hs it = (false, it) := by
  unfold hs_iter_next
  rw [if_pos h]

theorem iter_get_stale {α : Type} (hs : HSet α) (it : HSIterator α)
    (h : it.mutations ≠ hs.mut_count) : hs_iter_get hs it = none := by
  unfold hs_iter_get
  cases it.node with
  | none => rfl
  | some p =>
    rcases p with ⟨b, off⟩
    show (if it.mutations ≠ hs.mut_count then none
      else Option.map HSNode.key (bucketAt hs b)[off]?) = none
    rw [if_pos h]

/-! ### Claim theorems -/

/-- C1: the claim says `hs_clear` destroys every element, leaves the set
empty with `count` reset to zero, keeps capacity, and bumps the mutation
counter once.  The code walks the chains freeing nodes but never writes
`hs->count` and never resets the bucket heads: on the one-element set
{10}, the cleared set still reports `count = 1` (`hs_is_empty` is
false), its bucket array still holds the old (now dangling) chain
heads, while capacity is kept and the mutation counter is bumped once —
so the "empty afterwards, count reset to zero" part of the claim fails
on the code. -/
theorem C1_clear_leaves_count_and_buckets :
    (hs_clear (natSetOf [10])).count = 1 ∧
    hs_count (hs_clear (natSetOf [10])) ≠ 0 ∧
    hs_is_empty (some (hs_clear (natSetOf [10]))) = some false ∧
    (hs_clear (natSetOf [10])).buckets = (natSetOf [10]).buckets ∧
    (hs_clear (natSetOf [10])).capacity = (natSetOf [10]).capacity ∧
    (hs_clear (natSetOf [10])).mut_count = (natSetOf [10]).mut_count + 1 := by
  refine ⟨by decide, by decide, by decide, rfl, rfl, rfl⟩

/-- C2 counterexample: on the one-element set {10}, inserting the
already-present 10 returns "not inserted" and removing the absent 99
returns "not found", yet both calls change the mutation counter — the
set state is not unchanged as the claim demands. -/
theorem C2_negative_ops_bump_mut_counterexample :
    (hs_insert (natSetOf [10]) 10).1 = false ∧
    (hs_insert (natSetOf [10]) 10).2.mut_count ≠ (natSetOf [10]).mut_count ∧
    (hs_remove (natSetOf [10]) 99).1 = false ∧
    (hs_remove (natSetOf [10]) 99).2.mut_count ≠ (natSetOf [10]).mut_count := by
  refine ⟨by decide, by decide, by decide, by decide⟩

/-- C2 (amended): operations that report a negative result leave count,
buckets, capacity and the collision counter unchanged — but the
mutation counter is incremented by one even on these negative results,
because both `hs_insert` and `hs_remove` bump it before looking at the
bucket. -/
theorem C2_negative_ops_preserve_all_but_mut {α : Type} (hs : HSet α) (k : α) :
    (hs_contains hs k = true →
      (hs_insert hs k).1 = false ∧
      (hs_insert hs k).2.buckets = hs.buckets ∧
      (hs_insert hs k).2.count = hs.count ∧
      (hs_insert hs k).2.capacity = hs.capacity ∧
      (hs_insert hs k).2.collisions = hs.collisions ∧
      (hs_insert hs k).2.mut_count = hs.mut_count + 1) ∧
    (hs_contains hs k = false →
      (hs_remove hs k).1 = false ∧
      (hs_remove hs k).2.buckets = hs.buckets ∧
      (hs_remove hs k).2.count = hs.count ∧
      (hs_remove hs k).2.capacity = hs.capacity ∧
      (hs_remove hs k).2.collisions = hs.collisions ∧
      (hs_remove hs k).2.mut_count = hs.mut_count + 1) := by
  constructor
  · intro hcont
    rw [hs_insert_eq, if_pos hcont]
    exact ⟨rfl, rfl, rfl, rfl, rfl, rfl⟩
  · intro hcont
    have hft : __hs_find_target hs.cmp k (__hs_hash hs k)
        (bucketAt hs (__hs_index (__hs_hash hs k) hs.capacity)) = none := by
      cases hx : __hs_find_target hs.cmp k (__hs_hash hs k)
          (bucketAt hs (__hs_index (__hs_hash hs k) hs.capacity)) with
      | none => rfl
      | some b =>
        rw [contains_eq_isSome_find, hx] at hcont
        simp at hcont
    rw [hs_remove_eq, hft]
    exact ⟨rfl, rfl, rfl, rfl, rfl, rfl⟩

theorem C2_witness :
    (hs_contains (natSetOf [10]) 10 = true ∧
      ((hs_insert (natSetOf [10]) 10).1 = false ∧
       (hs_insert (natSetOf [10]) 10).2.buckets = (natSetOf [10]).buckets ∧
       (hs_insert (natSetOf [10]) 10).2.count = (natSetOf [10]).count ∧
       (hs_insert (natSetOf [10]) 10).2.capacity = (natSetOf [10]).capacity ∧
       (hs_insert (natSetOf [10]) 10).2.collisions = (natSetOf [10]).collisions ∧
       (hs_insert (natSetOf [10]) 10).2.mut_count = (natSetOf [10]).mut_count + 1)) ∧
    (hs_contains (natSetOf [10]) 99 = false ∧
      ((hs_remove (natSetOf [10]) 99).1 = false ∧
       (hs_remove (natSetOf [10]) 99).2.buckets = (natSetOf [10]).buckets ∧
       (hs_remove (natSetOf [10]) 99).2.count = (natSetOf [10]).count ∧
       (hs_remove (natSetOf [10]) 99).2.capacity = (natSetOf [10]).capacity ∧
       (hs_remove (natSetOf [10]) 99).2.collisions = (natSetOf [10]).collisions ∧
       (hs_remove (natSetOf [10]) 99).2.mut_count = (natSetOf [10]).mut_count + 1)) :=
  ⟨⟨by decide, (C2_negative_ops_preserve_all_but_mut (natSetOf [10]) 10).1 (by decide)⟩,
   ⟨by decide, (C2_negative_ops_preserve_all_but_mut (natSetOf [10]) 99).2 (by decide)⟩⟩

/-- C3: the claim says a null operand is treated as the empty set, so
IsSubset(null, B) returns true and never faults.  In the code,
`hs_is_subset(NULL, b)` with non-null `b` evaluates `hs_is_empty(NULL)`
whose body is `hs->count == 0` with no null check — a null-pointer
dereference (modelled by the `none` result) instead of `true`.  Only
the `NULL, NULL` case (caught by the `a == b` shortcut) answers true. -/
theorem C3_is_subset_null_faults :
    hs_is_subset (none : Option (HSet Nat)) (some (natSetOf [10])) = none ∧
    hs_is_empty (none : Option (HSet Nat)) = none ∧
    hs_is_subset (none : Option (HSet Nat)) (none : Option (HSet Nat))
      = some true :=
  ⟨rfl, rfl, rfl⟩

/-- C4: after every successful insert, `count / capacity <= load_factor`
holds, the transient violation being corrected by the capacity-doubling
resize before the call returns.  Hypotheses: the invariant held before
the insert, the capacity is positive, and `1/capacity <= load_factor`
(true for every constructed set: capacity ≥ 4 and the load factor
defaults to 0.75), which is what makes a single doubling sufficient. -/
theorem C4_load_factor_invariant {α : Type} (hs : HSet α) (k : α)
    (hcap : 0 < hs.capacity)
    (hpre : mkRat hs.count hs.capacity ≤ hs.load_factor)
    (hmin : mkRat 1 hs.capacity ≤ hs.load_factor)
    (hins : (hs_insert hs k).1 = true) :
    ((hs_insert hs k).2.count : ℚ) / ((hs_insert hs k).2.capacity : ℚ)
      ≤ (hs_insert hs k).2.load_factor := by
  by_cases hcont : hs_contains hs k
  · rw [hs_insert_eq, if_pos hcont] at hins
    simp at hins
  · rw [hs_insert_eq, if_neg hcont] at hins ⊢
    have hcapQ : (0 : ℚ) < (hs.capacity : ℚ) := by exact_mod_cast hcap
    have hpre' : (hs.count : ℚ) ≤ hs.load_factor * (hs.capacity : ℚ) := by
      rw [Rat.mkRat_eq_div, div_le_iff₀ hcapQ] at hpre
      push_cast at hpre
      linarith
    have hmin' : (1 : ℚ) ≤ hs.load_factor * (hs.capacity : ℚ) := by
      rw [Rat.mkRat_eq_div, div_le_iff₀ hcapQ] at hmin
      push_cast at hmin
      linarith
    show ((__hs_insert_grow (__hs_insert_node hs k)).count : ℚ) / _ ≤ _
    unfold __hs_insert_grow
    by_cases hg : (__hs_insert_node hs k).load_factor
        < mkRat (__hs_insert_node hs k).count (__hs_insert_node hs k).capacity
    · rw [if_pos hg]
      cases hres : __hs_resize (__hs_insert_node hs k)
          ((__hs_insert_node hs k).capacity * 2) with
      | none =>
        exfalso
        unfold __hs_resize at hres
        rw [if_neg (by show ¬ ((__hs_insert_node hs k).capacity * 2
          ≤ (__hs_insert_node hs k).capacity)
                       show ¬ (hs.capacity * 2 ≤ hs.capacity)
                       omega)] at hres
        simp at hres
      | some r =>
        obtain ⟨hlt, he⟩ := __hs_resize_some_eq hres
        have hrc : r.count = hs.count + 1 := by rw [he]; rfl
        have hrcap : r.capacity = hs.capacity * 2 := by rw [he]; rfl
        have hrlf : r.load_factor = hs.load_factor := by rw [he]; rfl
        rw [hrc, hrcap, hrlf]
        have hcap2 : (0 : ℚ) < ((hs.capacity * 2 : Nat) : ℚ) := by
          push_cast
          linarith
        rw [div_le_iff₀ hcap2]
        push_cast
        nlinarith [hpre', hmin']
    · rw [if_neg hg]
      have hg' : mkRat (hs.count + 1) hs.capacity ≤ hs.load_factor := by
        exact not_lt.1 hg
      rw [Rat.mkRat_eq_div] at hg'
      show ((hs.count + 1 : Nat) : ℚ) / ((hs.capacity : Nat) : ℚ) ≤ hs.load_factor
      push_cast at hg' ⊢
      exact hg'

theorem C4_witness :
    0 < (natSetOf [1, 2, 3]).capacity ∧
    mkRat (natSetOf [1, 2, 3]).count (natSetOf [1, 2, 3]).capacity
      ≤ (natSetOf [1, 2, 3]).load_factor ∧
    mkRat 1 (natSetOf [1, 2, 3]).capacity ≤ (natSetOf [1, 2, 3]).load_factor ∧
    (hs_insert (natSetOf [1, 2, 3]) 0).1 = true ∧
    ((hs_insert (natSetOf [1, 2, 3]) 0).2.count : ℚ)
        / ((hs_insert (natSetOf [1, 2, 3]) 0).2.capacity : ℚ)
      ≤ (hs_insert (natSetOf [1, 2, 3]) 0).2.load_factor :=
  ⟨by decide, by decide, by decide, by decide,
    C4_load_factor_invariant (natSetOf [1, 2, 3]) 0 (by decide) (by decide)
      (by decide) (by decide)⟩

/-- C5: a successful `__hs_resize` preserves membership (every element
findable before is findable after), leaves `count` unchanged, and every
node with cached hash `h` ends up in bucket `h & (new_capacity - 1)`. -/
theorem C5_resize_preserves_membership {α : Type} (hs hs' : HSet α) (c : Nat)
    (H : __hs_resize hs c = some hs') :
    (∀ k, hs_contains hs k = true → hs_contains hs' k = true) ∧
    hs'.count = hs.count ∧
    hs'.capacity = c ∧
    (∀ i, ∀ n ∈ bucketAt hs' i, n.hash &&& (hs'.capacity - 1) = i) := by
  refine ⟨fun k hk => resize_contains_forward H k hk, ?_, ?_, ?_⟩
  · rw [(__hs_resize_some_eq H).2]
  · rw [(__hs_resize_some_eq H).2]
  · intro i n hn
    exact resize_placed H i n hn

theorem C5_witness :
    (∀ k, hs_contains (natSetOf [10, 11]) k = true →
      hs_contains ((__hs_resize (natSetOf [10, 11]) 8).getD natEmpty) k = true) ∧
    ((__hs_resize (natSetOf [10, 11]) 8).getD natEmpty).count
      = (natSetOf [10, 11]).count ∧
    ((__hs_resize (natSetOf [10, 11]) 8).getD natEmpty).capacity = 8 ∧
    (∀ i, ∀ n ∈ bucketAt ((__hs_resize (natSetOf [10, 11]) 8).getD natEmpty) i,
      n.hash &&& (((__hs_resize (natSetOf [10, 11]) 8).getD natEmpty).capacity - 1)
        = i) :=
  C5_resize_preserves_membership (natSetOf [10, 11])
    ((__hs_resize (natSetOf [10, 11]) 8).getD natEmpty) 8 rfl

/-- C6: round-trip under a deterministic, consistent element policy: a
successful insert of `e` makes `Contains e` true, and after `Remove e`
(whether or not `e` was present) `Contains e` is false. -/
theorem C6_roundtrip {α : Type} (cmp : α → α → Int)
    (hasher : α → Nat → Nat → Nat) [PolicyOK cmp hasher]
    (hs : HSet α) (k : α)
    (hinv : HSInv hs) (hc : hs.cmp = cmp) (hh : hs.hasher = hasher) :
    ((hs_insert hs k).1 = true → hs_contains (hs_insert hs k).2 k = true) ∧
    hs_contains (hs_remove hs k).2 k = false := by
  obtain ⟨hinvI, hFI, _, hcI, hhI, _, _, _⟩ := insert_spec cmp hasher k hinv hc hh
  constructor
  · intro _
    rw [contains_iff cmp hasher hinvI hcI hhI k, hFI]
    exact Finset.mem_insert_self _ _
  · obtain ⟨hinvR, hFR, _, hcR, hhR, _⟩ := remove_spec cmp hasher k hinv hc hh
    cases hcc : hs_contains (hs_remove hs k).2 k with
    | false => rfl
    | true =>
      exfalso
      have hmem := (contains_iff cmp hasher hinvR hcR hhR k).1 hcc
      rw [hFR, Finset.mem_sdiff] at hmem
      exact hmem.2 (Finset.mem_singleton_self _)

theorem C6_witness :
    ((hs_insert (natSetOf [1, 2]) 7).1 = true →
      hs_contains (hs_insert (natSetOf [1, 2]) 7).2 7 = true) ∧
    hs_contains (hs_remove (natSetOf [1, 2]) 7).2 7 = false :=
  C6_roundtrip natCmp natHasher (natSetOf [1, 2]) 7 (by decide) rfl rfl

/-- C7: an iterator whose snapshot matches the set at creation fails
closed after any mutating operation (insert, remove, retain, clear,
resize): against any later state of the set (mutation counter at least
the post-mutation value, and it only ever grows), every `hs_iter_next`
returns false leaving the iterator unchanged, and every `hs_iter_get`
returns nothing — permanently. -/
theorem C7_iterator_fail_closed {α : Type} (hs : HSet α) (it : HSIterator α)
    (k : α) (pred : α → Bool) (c : Nat) (hs' hs'' : HSet α)
    (hsnap : it.mutations = hs.mut_count)
    (hop : hs' = (hs_insert hs k).2 ∨ hs' = (hs_remove hs k).2 ∨
      hs' = hs_retain hs pred ∨ hs' = hs_clear hs ∨ hs' = (hs_resize hs c).2)
    (hlater : hs'.mut_count ≤ hs''.mut_count) :
    hs_iter_next hs'' it = (false, it) ∧ hs_iter_get hs'' it = none := by
  have hmut : hs'.mut_count = hs.mut_count + 1 := by
    rcases hop with rfl | rfl | rfl | rfl | rfl
    · exact hs_insert_mut hs k
    · exact hs_remove_mut hs k
    · exact hs_retain_mut hs pred
    · exact hs_clear_mut hs
    · exact hs_resize_mut hs c
  have hne : it.mutations ≠ hs''.mut_count := by omega
  exact ⟨iter_next_stale hs'' it hne, iter_get_stale hs'' it hne⟩

theorem C7_witness :
    hs_iter_next (hs_insert (natSetOf [5]) 6).2 (hs_iterator (natSetOf [5]))
      = (false, hs_iterator (natSetOf [5])) ∧
    hs_iter_get (hs_insert (natSetOf [5]) 6).2 (hs_iterator (natSetOf [5]))
      = none :=
  C7_iterator_fail_closed (natSetOf [5]) (hs_iterator (natSetOf [5])) 6
    (fun _ => true) 0 (hs_insert (natSetOf [5]) 6).2
    (hs_insert (natSetOf [5]) 6).2 rfl (Or.inl rfl) (le_refl _)

/-! ### Class computations for the algebra operations -/

theorem listClasses_allKeys {α : Type} (cmp : α → α → Int)
    (hasher : α → Nat → Nat → Nat) [PolicyOK cmp hasher] (hs : HSet α) :
    listClasses cmp hasher (allKeys hs) = keyClasses cmp hasher hs := by
  unfold listClasses keyClasses allKeys
  rw [List.map_map]
  rfl

theorem mem_keyClasses_exists {α : Type} (cmp : α → α → Int)
    (hasher : α → Nat → Nat → Nat) [PolicyOK cmp hasher] (hs : HSet α)
    {x : Quotient (pSetoid cmp hasher)} (hx : x ∈ keyClasses cmp hasher hs) :
    ∃ n ∈ hs.buckets.flatten, Quotient.mk (pSetoid cmp hasher) n.key = x := by
  unfold keyClasses at hx
  rcases List.mem_map.1 (List.mem_toFinset.1 hx) with ⟨n, hn, he⟩
  exact ⟨n, hn, he⟩

theorem filter_not_contains_classes {α : Type} (cmp : α → α → Int)
    (hasher : α → Nat → Nat → Nat) [PolicyOK cmp hasher] (A : HSet α)
    {B : HSet α} (hB : HSInv B) (hcB : B.cmp = cmp) (hhB : B.hasher = hasher) :
    listClasses cmp hasher ((allKeys A).filter (fun k => !(hs_contains B k)))
      = keyClasses cmp hasher A \ keyClasses cmp hasher B := by
  ext x
  simp only [listClasses, List.mem_toFinset, List.mem_map, List.mem_filter,
    Finset.mem_sdiff]
  constructor
  · rintro ⟨k, ⟨hkA, hknB⟩, rfl⟩
    rw [Bool.not_eq_eq_eq_not, Bool.not_true] at hknB
    constructor
    · rcases List.mem_map.1 hkA with ⟨n, hn, rfl⟩
      exact node_class_mem cmp hasher A hn
    · intro hmem
      have := (contains_iff cmp hasher hB hcB hhB k).2 hmem
      rw [hknB] at this
      exact Bool.false_ne_true this
  · rintro ⟨hxA, hxB⟩
    rcases mem_keyClasses_exists cmp hasher A hxA with ⟨n, hn, rfl⟩
    refine ⟨n.key, ⟨List.mem_map.2 ⟨n, hn, rfl⟩, ?_⟩, rfl⟩
    cases hcc : hs_contains B n.key with
    | false => rfl
    | true =>
      exact absurd ((contains_iff cmp hasher hB hcB hhB n.key).1 hcc) hxB

theorem filter_contains_classes {α : Type} (cmp : α → α → Int)
    (hasher : α → Nat → Nat → Nat) [PolicyOK cmp hasher] (A : HSet α)
    {B : HSet α} (hB : HSInv B) (hcB : B.cmp = cmp) (hhB : B.hasher = hasher) :
    listClasses cmp hasher ((allKeys A).filter (fun k => hs_contains B k))
      = keyClasses cmp hasher A ∩ keyClasses cmp hasher B := by
  ext x
  simp only [listClasses, List.mem_toFinset, List.mem_map, List.mem_filter,
    Finset.mem_inter]
  constructor
  · rintro ⟨k, ⟨hkA, hkB⟩, rfl⟩
    constructor
    · rcases List.mem_map.1 hkA with ⟨n, hn, rfl⟩
      exact node_class_mem cmp hasher A hn
    · exact (contains_iff cmp hasher hB hcB hhB k).1 hkB
  · rintro ⟨hxA, hxB⟩
    rcases mem_keyClasses_exists cmp hasher A hxA with ⟨n, hn, rfl⟩
    exact ⟨n.key, ⟨List.mem_map.2 ⟨n, hn, rfl⟩,
      (contains_iff cmp hasher hB hcB hhB n.key).2 hxB⟩, rfl⟩

theorem sym_difference_count {α : Type} (cmp : α → α → Int)
    (hasher : α → Nat → Nat → Nat) [PolicyOK cmp hasher] (A B : HSet α)
    (s0 s1 : Nat)
    (hA : HSInv A) (hcA : A.cmp = cmp) (hhA : A.hasher = hasher)
    (hB : HSInv B) (hcB : B.cmp = cmp) (hhB : B.hasher = hasher) :
    ∃ sd, hs_sym_difference A B s0 s1 = some sd ∧
      sd.count = (keyClasses cmp hasher A \ keyClasses cmp hasher B).card
        + (keyClasses cmp hasher B \ keyClasses cmp hasher A).card := by
  obtain ⟨E, hEeq, hinvE, hcE, hhE, _, _, _, _, hFE⟩ :=
    new_with_capacity_spec A.element_size cmp hasher
      (__best_capacity (A.count + B.count) A.load_factor) s0 s1 hA.1
  have hmetaEq : hs_copy_metadata_with_capacity A
      (__best_capacity (A.count + B.count) A.load_factor) s0 s1 = some E := by
    unfold hs_copy_metadata_with_capacity
    rw [hcA, hhA]
    exact hEeq
  obtain ⟨hinv1, hF1, hc1, hh1, _⟩ := insert_where_spec cmp hasher
    (fun k => !(hs_contains B k)) (allKeys A) hinvE hcE hhE
  obtain ⟨hinv2, hF2, hc2, hh2, _⟩ := insert_where_spec cmp hasher
    (fun k => !(hs_contains A k)) (allKeys B) hinv1 hc1 hh1
  refine ⟨__hs_insert_where (fun k => !(hs_contains A k))
      (__hs_insert_where (fun k => !(hs_contains B k)) E (allKeys A))
      (allKeys B), ?_, ?_⟩
  · simp only [hs_sym_difference]
    rw [hmetaEq]
  · have hFr1 : keyClasses cmp hasher
        (__hs_insert_where (fun k => !(hs_contains B k)) E (allKeys A))
        = keyClasses cmp hasher A \ keyClasses cmp hasher B := by
      rw [hF1, hFE, filter_not_contains_classes cmp hasher A hB hcB hhB]
      exact Finset.empty_union _
    have hFr2 : keyClasses cmp hasher (__hs_insert_where
        (fun k => !(hs_contains A k))
        (__hs_insert_where (fun k => !(hs_contains B k)) E (allKeys A))
        (allKeys B))
        = (keyClasses cmp hasher A \ keyClasses cmp hasher B)
          ∪ (keyClasses cmp hasher B \ keyClasses cmp hasher A) := by
      rw [hF2, hFr1, filter_not_contains_classes cmp hasher B hA hcA hhA]
    rw [count_eq_card cmp hasher hinv2 hc2, hFr2]
    refine Finset.card_union_of_disjoint ?_
    rw [Finset.disjoint_left]
    intro x h1 h2
    rw [Finset.mem_sdiff] at h1 h2
    exact h1.2 h2.1

theorem intersection_count {α : Type} (cmp : α → α → Int)
    (hasher : α → Nat → Nat → Nat) [PolicyOK cmp hasher] (A B : HSet α)
    (s0 s1 : Nat)
    (hA : HSInv A) (hcA : A.cmp = cmp) (hhA : A.hasher = hasher)
    (hB : HSInv B) (hcB : B.cmp = cmp) (hhB : B.hasher = hasher) :
    ∃ inter, hs_intersection A B s0 s1 = some inter ∧
      inter.count
        = (keyClasses cmp hasher A ∩ keyClasses cmp hasher B).card := by
  by_cases hab : A.count ≤ B.count
  · obtain ⟨E, hEeq, hinvE, hcE, hhE, _, _, _, _, hFE⟩ :=
      new_with_capacity_spec A.element_size cmp hasher B.capacity s0 s1 hA.1
    have hmetaEq : hs_copy_metadata_with_capacity A B.capacity s0 s1
        = some E := by
      unfold hs_copy_metadata_with_capacity
      rw [hcA, hhA]
      exact hEeq
    obtain ⟨hinv1, hF1, hc1, hh1, _⟩ := insert_where_spec cmp hasher
      (fun k => hs_contains B k) (allKeys A) hinvE hcE hhE
    refine ⟨__hs_insert_where (fun k => hs_contains B k) E (allKeys A), ?_, ?_⟩
    · simp only [hs_intersection, if_pos hab]
      rw [hmetaEq]
    · rw [count_eq_card cmp hasher hinv1 hc1, hF1, hFE,
        filter_contains_classes cmp hasher A hB hcB hhB]
      rw [Finset.empty_union]
  · obtain ⟨E, hEeq, hinvE, hcE, hhE, _, _, _, _, hFE⟩ :=
      new_with_capacity_spec A.element_size cmp hasher A.capacity s0 s1 hA.1
    have hmetaEq : hs_copy_metadata_with_capacity A A.capacity s0 s1
        = some E := by
      unfold hs_copy_metadata_with_capacity
      rw [hcA, hhA]
      exact hEeq
    obtain ⟨hinv1, hF1, hc1, hh1, _⟩ := insert_where_spec cmp hasher
      (fun k => hs_contains A k) (allKeys B) hinvE hcE hhE
    refine ⟨__hs_insert_where (fun k => hs_contains A k) E (allKeys B), ?_, ?_⟩
    · simp only [hs_intersection, if_neg hab]
      rw [hmetaEq]
    · rw [count_eq_card cmp hasher hinv1 hc1, hF1, hFE,
        filter_contains_classes cmp hasher B hA hcA hhA]
      rw [Finset.empty_union, Finset.inter_comm]

/-- C8: for all sets A and B sharing a sound element policy, the
symmetric difference's cardinality equals
`count(A) + count(B) - 2 * count(Intersection(A,B))` (stated both in
subtraction-free and in the claim's subtraction form). -/
theorem C8_sym_difference_card {α : Type} (cmp : α → α → Int)
    (hasher : α → Nat → Nat → Nat) [PolicyOK cmp hasher] (A B : HSet α)
    (s0 s1 s2 s3 : Nat)
    (hA : HSInv A) (hcA : A.cmp = cmp) (hhA : A.hasher = hasher)
    (hB : HSInv B) (hcB : B.cmp = cmp) (hhB : B.hasher = hasher) :
    ∃ sd inter, hs_sym_difference A B s0 s1 = some sd ∧
      hs_intersection A B s2 s3 = some inter ∧
      sd.count + 2 * inter.count = A.count + B.count ∧
      sd.count = A.count + B.count - 2 * inter.count := by
  obtain ⟨sd, hsd, hsdcount⟩ :=
    sym_difference_count cmp hasher A B s0 s1 hA hcA hhA hB hcB hhB
  obtain ⟨inter, hint, hintcount⟩ :=
    intersection_count cmp hasher A B s2 s3 hA hcA hhA hB hcB hhB
  have e1 := Finset.card_sdiff_add_card_inter
    (keyClasses cmp hasher A) (keyClasses cmp hasher B)
  have e2 := Finset.card_sdiff_add_card_inter
    (keyClasses cmp hasher B) (keyClasses cmp hasher A)
  rw [Finset.inter_comm] at e2
  have hAcard := count_eq_card cmp hasher hA hcA
  have hBcard := count_eq_card cmp hasher hB hcB
  exact ⟨sd, inter, hsd, hint, by omega, by omega⟩

theorem C8_witness :
    ∃ sd inter,
      hs_sym_difference (natSetOf [1, 2, 3]) (natSetOf [3, 4]) 0 0 = some sd ∧
      hs_intersection (natSetOf [1, 2, 3]) (natSetOf [3, 4]) 0 0 = some inter ∧
      sd.count + 2 * inter.count
        = (natSetOf [1, 2, 3]).count + (natSetOf [3, 4]).count ∧
      sd.count = (natSetOf [1, 2, 3]).count + (natSetOf [3, 4]).count
        - 2 * inter.count :=
  C8_sym_difference_card natCmp natHasher (natSetOf [1, 2, 3])
    (natSetOf [3, 4]) 0 0 0 0 (by decide) rfl rfl (by decide) rfl rfl

/-- C9: `hs_copy` succeeds on every well-formed set (allocation failure
is not modelled), and the copy — despite drawing fresh random seeds —
has the same count and the same membership as the source, so
`hs_are_eq(copy, A)` holds. -/
theorem C9_copy_preserves_eq {α : Type} (cmp : α → α → Int)
    (hasher : α → Nat → Nat → Nat) [PolicyOK cmp hasher] (A : HSet α)
    (s0 s1 : Nat)
    (hA : HSInv A) (hcA : A.cmp = cmp) (hhA : A.hasher = hasher) :
    ∃ c, hs_copy A s0 s1 = some c ∧ c.count = A.count ∧
      (∀ k, hs_contains c k = hs_contains A k) ∧ hs_are_eq c A = true := by
  obtain ⟨E, hEeq, hinvE, hcE, hhE, _, heszE, _, _, hFE⟩ :=
    new_with_capacity_spec A.element_size cmp hasher 4 s0 s1 hA.1
  have hmetaEq : hs_copy_metadata A s0 s1 = some E := by
    unfold hs_copy_metadata hs_new
    rw [hcA, hhA]
    exact hEeq
  have hpw : (allKeys A).Pairwise (fun x y => cmp x y ≠ 0) := by
    unfold allKeys
    rw [List.pairwise_map]
    refine (hA.2.2.2.2.2.2).imp ?_
    intro n m h
    rw [hcA] at h
    exact h
  have hfresh : ∀ x ∈ allKeys A,
      Quotient.mk (pSetoid cmp hasher) x ∉ keyClasses cmp hasher E := by
    intro x hx
    rw [hFE]
    exact Finset.not_mem_empty _
  obtain ⟨c, hc⟩ := insert_all_succeeds cmp hasher hinvE hcE hhE hpw hfresh
  obtain ⟨hinvC, hFC, hcC, hhC, heszC⟩ :=
    insert_all_some_spec cmp hasher hinvE hcE hhE hc
  have hFCA : keyClasses cmp hasher c = keyClasses cmp hasher A := by
    rw [hFC, hFE, listClasses_allKeys]
    exact Finset.empty_union _
  have hcount : c.count = A.count := by
    rw [count_eq_card cmp hasher hinvC hcC, hFCA,
      ← count_eq_card cmp hasher hA hcA]
  have hmemb : ∀ k, hs_contains c k = hs_contains A k := by
    intro k
    have h1 := contains_iff cmp hasher hinvC hcC hhC k
    have h2 := contains_iff cmp hasher hA hcA hhA k
    rw [hFCA] at h1
    cases hck : hs_contains A k with
    | true => exact h1.2 (h2.1 hck)
    | false =>
      cases hcc : hs_contains c k with
      | false => rfl
      | true =>
        have := h2.2 (h1.1 hcc)
        rw [hck] at this
        exact absurd this Bool.false_ne_true
  refine ⟨c, ?_, hcount, hmemb, ?_⟩
  · unfold hs_copy
    rw [hmetaEq]
    exact hc
  · unfold hs_are_eq
    rw [if_neg (by omega)]
    rw [if_neg (by rw [heszC, heszE]; omega)]
    rw [List.all_eq_true]
    intro node hnode
    exact (contains_iff cmp hasher hA hcA hhA node.key).2
      (by rw [← hFCA]; exact node_class_mem cmp hasher c hnode)

theorem C9_witness :
    ∃ c, hs_copy (natSetOf [1, 2, 3]) 7 8 = some c ∧
      c.count = (natSetOf [1, 2, 3]).count ∧
      (∀ k, hs_contains c k = hs_contains (natSetOf [1, 2, 3]) k) ∧
      hs_are_eq c (natSetOf [1, 2, 3]) = true :=
  C9_copy_preserves_eq natCmp natHasher (natSetOf [1, 2, 3]) 7 8
    (by decide) rfl rfl

/-- C10: `hs_new_from_array` succeeds exactly when the array's elements
are pairwise distinct under the policy comparator; any array containing
two equal elements makes construction fail to NULL (it never
deduplicates), because the first rejected insert aborts the whole
construction. -/
theorem C10_from_array_iff_pairwise {α : Type} (cmp : α → α → Int)
    (hasher : α → Nat → Nat → Nat) [PolicyOK cmp hasher] (esz : Nat)
    (arr : List α) (s0 s1 : Nat) (hesz : 0 < esz) :
    (∃ hs, hs_new_from_array α esz cmp hasher arr s0 s1 = some hs) ↔
      arr.Pairwise (fun x y => cmp x y ≠ 0) := by
  obtain ⟨E, hEeq, hinvE, hcE, hhE, _, _, _, _, hFE⟩ :=
    new_with_capacity_spec esz cmp hasher arr.length s0 s1 hesz
  unfold hs_new_from_array
  rw [hEeq]
  constructor
  · rintro ⟨r, hr⟩
    exact (insert_all_pairwise cmp hasher hinvE hcE hhE hr).1
  · intro hpw
    have hfresh : ∀ x ∈ arr,
        Quotient.mk (pSetoid cmp hasher) x ∉ keyClasses cmp hasher E := by
      intro x hx
      rw [hFE]
      exact Finset.not_mem_empty _
    obtain ⟨r, hr⟩ := insert_all_succeeds cmp hasher hinvE hcE hhE hpw hfresh
    exact ⟨r, hr⟩

theorem C10_witness :
    hs_new_from_array Nat 8 natCmp natHasher [1, 2, 1] 0 0 = none ∧
    (∃ hs, hs_new_from_array Nat 8 natCmp natHasher [1, 2, 3] 0 0 = some hs) := by
  constructor
  · cases he : hs_new_from_array Nat 8 natCmp natHasher [1, 2, 1] 0 0 with
    | none => rfl
    | some hs =>
      have hpw := (C10_from_array_iff_pairwise natCmp natHasher 8 [1, 2, 1]
        0 0 (by decide)).1 ⟨hs, he⟩
      exact absurd hpw (by decide)
  · exact (C10_from_array_iff_pairwise natCmp natHasher 8 [1, 2, 3] 0 0
      (by decide)).2 (by decide)

end HashSetC
